import Mathlib

/-!
# pad2gh: a shallow embedding of `src/pad2gh/main.go`

A Go `string` is a sequence of bytes, and `len`, slicing, `strings.Split`,
`strings.HasPrefix`, `strings.HasSuffix` and `strings.Trim` all work on bytes.
Strings are therefore modelled as lists of bytes (`Str`).  String literals of
the program are written `utf8 "..."`.

What the program reads from the network is modelled as data: `http.Get` is a
function from a URL to a transport error or a response, and a response body is
the sequence of lines `bufio.Scanner` delivers together with the scanner's
final error.  `log.Fatal` and a runtime panic are the two ways a run can end
without a record (`Failure`).
-/

namespace Pad2gh

/-! ## Strings -/

/-- A Go string: a sequence of bytes. -/
abbrev Str := List UInt8

/-- The byte of an ASCII character literal. -/
def byte (c : Char) : UInt8 := c.toNat.toUInt8

/-- The UTF-8 encoding of one rune. -/
def utf8Rune (c : Char) : Str :=
  let n := c.toNat
  if n < 0x80 then [n.toUInt8]
  else if n < 0x800 then [(0xC0 + n / 64).toUInt8, (0x80 + n % 64).toUInt8]
  else if n < 0x10000 then
    [(0xE0 + n / 4096).toUInt8, (0x80 + n / 64 % 64).toUInt8, (0x80 + n % 64).toUInt8]
  else
    [(0xF0 + n / 262144).toUInt8, (0x80 + n / 4096 % 64).toUInt8,
     (0x80 + n / 64 % 64).toUInt8, (0x80 + n % 64).toUInt8]

/-- The bytes of a string literal of the program (Go source is UTF-8). -/
def utf8 (s : String) : Str := s.data.flatMap utf8Rune

/-- Go `strings.HasPrefix(s, p)`. -/
def HasPrefix (s p : Str) : Bool := p.isPrefixOf s

/-- Go `strings.HasSuffix(s, p)`. -/
def HasSuffix (s p : Str) : Bool := p.reverse.isPrefixOf s.reverse

/-- Go `strings.TrimPrefix(s, p)`. -/
def TrimPrefix (s p : Str) : Str := if HasPrefix s p then s.drop p.length else s

/-- Go `strings.TrimSuffix(s, p)`. -/
def TrimSuffix (s p : Str) : Str :=
  if HasSuffix s p then s.take (s.length - p.length) else s

/-- Go `strings.Split(s, sep)` for a separator of one byte, the only kind the
program passes.  The result is never empty: a string without the separator
(the empty string included) gives the one-element list holding it. -/
def Split : Str → UInt8 → List Str
  | [], _ => [[]]
  | c :: cs, sep =>
    if c = sep then [] :: Split cs sep
    else
      match Split cs sep with
      | [] => [[c]]
      | x :: xs => (c :: x) :: xs

/-- Go `strings.Join(elems, sep)`. -/
def Join : List Str → Str → Str
  | [], _ => []
  | [x], _ => x
  | x :: y :: xs, sep => x ++ sep ++ Join (y :: xs) sep

/-- Go `strings.Trim(s, cutset)` for a cutset of one ASCII byte: the library
trims the right end, then the left end, of that byte. -/
def Trim (s : Str) (c : UInt8) : Str :=
  ((s.reverse.dropWhile (fun b => b == c)).reverse).dropWhile (fun b => b == c)

/-- Go `strings.ToLower(s)`.  A string of ASCII bytes only is lowered byte by
byte (`A`..`Z` get `'a' - 'A'` added).  A string with a byte of 0x80 or more
goes through `strings.Map(unicode.ToLower, s)`; the Unicode case tables it
reads belong to the Go library and are taken as the parameter `mapLower`. -/
def ToLower (mapLower : Str → Str) (s : Str) : Str :=
  if s.all (fun c => c < 0x80) then
    s.map (fun c => if byte 'A' ≤ c ∧ c ≤ byte 'Z' then c + (byte 'a' - byte 'A') else c)
  else mapLower s

/-- Go `s[i:j]`: the bytes from offset `i` up to `j`, and `none` where the Go
runtime panics (slice bounds out of range). -/
def slice (s : Str) (i j : Nat) : Option Str :=
  if i ≤ j ∧ j ≤ s.length then some ((s.drop i).take (j - i)) else none

/-! ## The outside world -/

/-- How a run ends without a record. -/
inductive Failure where
  /-- Ended by `log.Fatal` with the message logged. -/
  | fatal (msg : String)
  /-- Ended by a runtime panic. -/
  | panic
  deriving DecidableEq, Repr

deriving instance DecidableEq for Except

/-- A response body as the program reads it: the lines that successive
`scanner.Scan()` / `scanner.Text()` calls deliver, and what `scanner.Err()`
reports once `Scan` has returned false. -/
structure Body where
  lines : List Str
  err : Option String

/-- The part of an `http.Response` the program looks at. -/
structure Response where
  StatusCode : Nat
  Body : Body

/-- Go `http.Get`: a transport error or a response. -/
abbrev Get := Str → Except String Response

/-- The host prefix of an episode pad. -/
def padHost : Str := utf8 "https://pad.ccc-p.org/"

/-- Go `getPadContent` (lines 43-55). -/
def getPadContent (get : Get) (padURL : Str) : Except Failure Body :=
  let padURL := TrimSuffix padURL (utf8 "/")
  let padURL := padURL ++ utf8 "/download"
  match get padURL with
  | .error err => .error (.fatal err)
  | .ok resp =>
    if resp.StatusCode ≠ 200 then .error (.fatal "pad url must be accessible")
    else .ok resp.Body

/-! ## getFirstLink -/

/-- The body of the inner loop of `getFirstLink` (lines 90-97) for one
`linkCandidate`: the link it makes the function return, if any. -/
def linkOfCandidate (linkCandidate : Str) : Option Str :=
  if HasPrefix linkCandidate padHost then
    if HasSuffix linkCandidate (utf8 ")") then
      let link := Split linkCandidate (byte ')')
      if link.length > 1 then link.head? else none
    else none
  else none

/-- Go `getFirstLink` (lines 86-104) on the body `getPadContent` returned: the
pair `(string, error)` it returns. -/
def getFirstLink (padContent : Body) : Str × Option String :=
  match padContent.lines.findSome?
      (fun line => (Split line (byte '(')).findSome? linkOfCandidate) with
  | some link => (link, none)
  | none =>
    match padContent.err with
    | some err => ([], some err)
    | none => ([], none)

/-- Go `findFirstLink` (lines 107-114). -/
def findFirstLink (line : Str) : Str :=
  match (Split line (byte ' ')).find? (fun linkCandidate => HasPrefix linkCandidate (utf8 "http")) with
  | some linkCandidate => linkCandidate
  | none => []

/-- Go `getTitleFromFMA` (lines 57-79). -/
def getTitleFromFMA (get : Get) (fmaURL : Str) : Except Failure Str :=
  match get fmaURL with
  | .error err => .error (.fatal err)
  | .ok resp =>
    if resp.StatusCode ≠ 200 then .error (.fatal "pad url must be accessible")
    else
      match resp.Body.lines.find? (fun line => HasPrefix line (utf8 "<title>")) with
      | some line => .ok (TrimSuffix (TrimPrefix line (utf8 "<title>")) (utf8 "</title>"))
      | none =>
        match resp.Body.err with
        | some err => .error (.fatal err)
        | none => .ok fmaURL

/-! ## getMarkdownContentBySection -/

/-- A Go `map[string][]string`, as the list of its key/value pairs; the order
of the pairs has no meaning. -/
abbrev SectionMap := List (Str × List Str)

/-- Go `v, exists := m[k]`: `none` stands for `exists == false`. -/
def SectionMap.get? (m : SectionMap) (k : Str) : Option (List Str) :=
  match m with
  | [] => none
  | (k', v) :: rest => if k' = k then some v else SectionMap.get? rest k

/-- Go `m[k] = v`: the value of an existing key is replaced, a new key added. -/
def SectionMap.set (m : SectionMap) (k : Str) (v : List Str) : SectionMap :=
  match m with
  | [] => [(k, v)]
  | (k', v') :: rest => if k' = k then (k, v) :: rest else (k', v') :: SectionMap.set rest k v

/-- The keys of a map. -/
def SectionMap.keys (m : SectionMap) : List Str := m.map Prod.fst

/-- The local variables of the scanning loop of `getMarkdownContentBySection`. -/
structure SplitState where
  currentSection : Str
  currentSectionContent : List Str
  contentBySection : SectionMap

/-- One turn of the scanning loop (lines 126-136). -/
def sectionStep (mapLower : Str → Str) (st : SplitState) (line : Str) : SplitState :=
  if HasPrefix line (utf8 "## ") then
    { contentBySection :=
        st.contentBySection.set (ToLower mapLower st.currentSection) st.currentSectionContent
      currentSectionContent := []
      currentSection := TrimPrefix line (utf8 "## ") }
  else if HasPrefix line (utf8 "#") then st
  else { st with currentSectionContent := st.currentSectionContent ++ [Trim line (byte ' ')] }

/-- The state of the scanning loop once all lines are read (lines 122-137). -/
def scanSections (mapLower : Str → Str) (lines : List Str) : SplitState :=
  lines.foldl (sectionStep mapLower)
    { currentSection := utf8 "pre-section", currentSectionContent := [], contentBySection := [] }

/-- Go `getMarkdownContentBySection` (lines 121-142) on the body `getPadContent`
returned. -/
def getMarkdownContentBySection (mapLower : Str → Str) (padContent : Body) :
    Except Failure SectionMap :=
  let st := scanSections mapLower padContent.lines
  let contentBySection := st.contentBySection.set st.currentSection st.currentSectionContent
  match padContent.err with
  | some err => .error (.fatal err)
  | none => .ok contentBySection

/-! ## main -/

/-- Go `CiRaudio` (lines 20-23). -/
structure CiRaudio where
  Url : Str
  MimeType : Str
  deriving DecidableEq

/-- Go `CiRChapter` (lines 26-29). -/
structure CiRChapter where
  Start : Str
  Title : Str
  deriving DecidableEq

/-- Go `CiREntry` (lines 32-41). -/
structure CiREntry where
  UUID : Str
  Title : Str
  Subtitle : Str
  Summary : Str
  PublicationDate : Str
  Audio : CiRaudio
  Chapters : List CiRChapter
  LongSummaryMD : Str
  deriving DecidableEq

/-- The choice of the episode pad URL in `main` (lines 154-166).  `padURLPtr`
is the value of the `-l` flag, the empty string when the flag is not given. -/
def main_padURL (get : Get) (padURLPtr : Str) : Except Failure Str :=
  let padURL : Str := []
  if padURLPtr = [] then
    match getPadContent get (utf8 "https://pad.ccc-p.org/Radio") with
    | .error f => .error f
    | .ok padContent =>
      match getFirstLink padContent with
      | (_, some err) => .error (.fatal err)
      | (link, none) => .ok link
  else
    if !HasPrefix padURL padHost then
      .error (.fatal "pad url must start with https://pad.ccc-p.org/")
    else .ok padURLPtr

/-- The date extraction in `main` (lines 170-181): year, month and day. -/
def main_date (padURL : Str) : Except Failure (Str × Str × Str) :=
  if (Split padURL (byte '_')).length < 2 then
    .error (.fatal "pad url must contain a date in the format YYYY-MM-DD_")
  else
    match (Split padURL (byte '_')).get? 1 with
    | none => .error .panic
    | some entryDate =>
      if entryDate.length < 10 then
        .error (.fatal "pad url must contain a date in the format YYYY-MM-DD_")
      else
        match slice entryDate 0 4, slice entryDate 5 7, slice entryDate 8 10 with
        | some year, some month, some day => .ok (year, month, day)
        | _, _, _ => .error .panic

/-- The lookup of the long summary in `main` (lines 182-185): `none` stands
for `exists == false` after both lookups. -/
def main_longSummary (contentBySection : SectionMap) : Option (List Str) :=
  match contentBySection.get? (utf8 "shownotes") with
  | some longSummary => some longSummary
  | none => contentBySection.get? (utf8 "long summary")

/-- The body of the chapter loop of `main` (lines 212-216) for one line: the
chapter it appends, if any. -/
def chapterOf (c : Str) : Option CiRChapter :=
  let chapter := Split c (byte ' ')
  if chapter.length < 2 then none
  else some { Start := chapter.headD [], Title := Join (chapter.drop 1) (utf8 " ") }

/-- The chapter list `main` builds (lines 208-218). -/
def main_chapters (contentBySection : SectionMap) : List CiRChapter :=
  match contentBySection.get? (utf8 "chapters") with
  | some chapter => chapter.filterMap chapterOf
  | none => []

/-- The loop of `main` over the `mukke` lines (lines 222-229), threading
`entry.LongSummaryMD`; `getTitle` is the title fetch. -/
def mukkeLoop (getTitle : Str → Except Failure Str) : List Str → Str → Except Failure Str
  | [], md => .ok md
  | m :: rest, md =>
    let link := findFirstLink m
    if link = [] then mukkeLoop getTitle rest md
    else
      match getTitle link with
      | .error f => .error f
      | .ok title =>
        mukkeLoop getTitle rest
          (md ++ (utf8 "\n&#x1f3b6;&nbsp;[" ++ title ++ utf8 "](" ++ link ++ utf8 ")"))

/-- The music credits step of `main` (lines 220-232). -/
def main_mukke (getTitle : Str → Except Failure Str) (contentBySection : SectionMap)
    (md : Str) : Except Failure Str :=
  match contentBySection.get? (utf8 "mukke") with
  | some mukke => mukkeLoop getTitle mukke md
  | none => .ok md

/-- The record `main` has built when line 206 is done (lines 170-206): the
date, the two required sections, and the fields set from them.  `Chapters` is
still the nil slice. -/
def main_entry (padURL : Str) (contentBySection : SectionMap) : Except Failure CiREntry :=
  match main_date padURL with
  | .error f => .error f
  | .ok (year, month, day) =>
    match main_longSummary contentBySection with
    | none => .error (.fatal "no shownotes Section in Pad")
    | some longSummary =>
      match contentBySection.get? (utf8 "summary") with
      | none => .error (.fatal "no Summary Section in Pad")
      | some shortSummary =>
        .ok
          { UUID := utf8 "nt-" ++ year ++ utf8 "-" ++ month ++ utf8 "-" ++ day
            Title := utf8 "CiR am " ++ day ++ utf8 "." ++ month ++ utf8 "." ++ year
            Subtitle := utf8 "Der Chaostreff im Freien Radio Potsdam"
            Summary := Join shortSummary (utf8 "\n")
            PublicationDate :=
              year ++ utf8 "-" ++ month ++ utf8 "-" ++ day ++ utf8 "T00:00:00+02:00"
            Audio :=
              { Url := utf8 "$media_base_url/" ++ year ++ utf8 "_" ++ month ++ utf8 "_" ++ day
                  ++ utf8 "-chaos-im-radio.mp3"
                MimeType := utf8 "audio/mp3" }
            Chapters := []
            LongSummaryMD := utf8 "**Shownotes:**\n" ++ Join longSummary (utf8 "\n") }

/-- The record assembly of `main` (lines 170-232) from the episode pad URL and
the section map; `getTitle` is the title fetch. -/
def main_record (getTitle : Str → Except Failure Str) (padURL : Str)
    (contentBySection : SectionMap) : Except Failure CiREntry :=
  match main_entry padURL contentBySection with
  | .error f => .error f
  | .ok entry =>
    match main_mukke getTitle contentBySection entry.LongSummaryMD with
    | .error f => .error f
    | .ok md => .ok { entry with Chapters := main_chapters contentBySection, LongSummaryMD := md }

/-- What `main` does with the episode pad once it is fetched (lines 168-232):
split it into sections, then assemble the record. -/
def main_assemble (mapLower : Str → Str) (getTitle : Str → Except Failure Str)
    (padURL : Str) (padContent : Body) : Except Failure CiREntry :=
  match getMarkdownContentBySection mapLower padContent with
  | .error f => .error f
  | .ok contentBySection => main_record getTitle padURL contentBySection

/-- The run of `main` up to the record it marshals (lines 154-232). -/
def main (mapLower : Str → Str) (get : Get) (padURLPtr : Str) : Except Failure CiREntry :=
  match main_padURL get padURLPtr with
  | .error f => .error f
  | .ok padURL =>
    match getPadContent get padURL with
    | .error f => .error f
    | .ok padContent => main_assemble mapLower (getTitleFromFMA get) padURL padContent

/-! ## The YAML keys of the record -/

/-- A field of a Go struct as it is declared: its name, and the value of its
`yaml` struct tag, `none` when the declaration has no tag. -/
structure Field where
  name : Str
  yamlTag : Option Str

/-- The fields of `CiRaudio` as declared on lines 21-22.  On both lines the
back-quoted `yaml:"..."` text stands behind `//`, inside the line comment, so
neither field has a struct tag. -/
def CiRaudio.fields : List Field :=
  [⟨utf8 "Url", none⟩, ⟨utf8 "MimeType", none⟩]

/-- The fields of `CiRChapter` as declared on lines 27-28.  The tag text of
`Start` stands inside the line comment; `Title` has the tag `title`. -/
def CiRChapter.fields : List Field :=
  [⟨utf8 "Start", none⟩, ⟨utf8 "Title", some (utf8 "title")⟩]

/-- The fields of `CiREntry` as declared on lines 33-40, all of them tagged. -/
def CiREntry.fields : List Field :=
  [⟨utf8 "UUID", some (utf8 "uuid")⟩, ⟨utf8 "Title", some (utf8 "title")⟩,
   ⟨utf8 "Subtitle", some (utf8 "subtitle")⟩, ⟨utf8 "Summary", some (utf8 "summary")⟩,
   ⟨utf8 "PublicationDate", some (utf8 "publicationDate")⟩,
   ⟨utf8 "Audio", some (utf8 "audio")⟩, ⟨utf8 "Chapters", some (utf8 "chapters")⟩,
   ⟨utf8 "LongSummaryMD", some (utf8 "long_summary_md")⟩]

/-- The key under which `yaml.Marshal` (gopkg.in/yaml.v3, line 234) writes a
struct field: the field's `yaml` tag when it has one, and otherwise the field
name put through `strings.ToLower`. -/
def yamlKey (mapLower : Str → Str) (f : Field) : Str :=
  match f.yamlTag with
  | some tag => tag
  | none => ToLower mapLower f.name

/-- The words of the round-trip claim: a section map written back as a
document, each key as the line `## <key>` followed by the key's lines, the
keys in the order of the list. -/
def rebuildDocument (m : SectionMap) : List Str :=
  m.flatMap (fun p => (utf8 "## " ++ p.1) :: p.2)

/-- The words of the claims about the date: the segment of the URL between
its first `_` and the next `_`, or the end of the URL when there is no next. -/
def segmentAfterFirstUnderscore (padURL : Str) : Str :=
  ((padURL.dropWhile (fun b => b != byte '_')).drop 1).takeWhile (fun b => b != byte '_')

/-! ## Facts about the string library -/

theorem HasPrefix_iff (s p : Str) : HasPrefix s p = true ↔ p <+: s := by
  simp [HasPrefix]

theorem HasSuffix_iff (s p : Str) : HasSuffix s p = true ↔ p <:+ s := by
  simp [HasSuffix]

theorem HasPrefix_append (s t p : Str) (h : HasPrefix s p = true) :
    HasPrefix (s ++ t) p = true := by
  rw [HasPrefix_iff] at *
  exact h.trans (List.prefix_append s t)

theorem Split_ne_nil (s : Str) (sep : UInt8) : Split s sep ≠ [] := by
  induction s with
  | nil => simp [Split]
  | cons c cs ih =>
    unfold Split
    split
    · simp
    · split <;> simp

theorem Split_of_not_mem (s : Str) (sep : UInt8) (h : sep ∉ s) : Split s sep = [s] := by
  induction s with
  | nil => rfl
  | cons c cs ih =>
    have hc : ¬ c = sep := fun e => h (by simp [e])
    have hcs : sep ∉ cs := fun m => h (List.mem_cons_of_mem _ m)
    simp [Split, hc, ih hcs]

theorem Split_append_sep (a b : Str) (sep : UInt8) :
    Split (a ++ sep :: b) sep = Split a sep ++ Split b sep := by
  induction a with
  | nil => simp [Split]
  | cons c cs ih =>
    by_cases hc : c = sep
    · simp [Split, hc, ih]
    · have hne := Split_ne_nil cs sep
      cases hs : Split cs sep with
      | nil => exact absurd hs hne
      | cons x xs => simp [Split, hc, ih, hs]

/-! ## C1: getFirstLink -/

/-- A fragment that starts with a host-prefixed URL `U` free of `)`, goes on
with `)`, and ends with `)` is accepted, and `U` is what is returned. -/
theorem linkOfCandidate_closed (U mid : Str) (hp : HasPrefix U padHost = true)
    (hc : byte ')' ∉ U) (hend : mid = [] ∨ HasSuffix mid (utf8 ")") = true) :
    linkOfCandidate (U ++ byte ')' :: mid) = some U := by
  have h1 : HasPrefix (U ++ byte ')' :: mid) padHost = true := HasPrefix_append _ _ _ hp
  have h2 : HasSuffix (U ++ byte ')' :: mid) (utf8 ")") = true := by
    rw [HasSuffix_iff]
    rcases hend with rfl | hm
    · exact ⟨U, rfl⟩
    · obtain ⟨t, ht⟩ := (HasSuffix_iff _ _).1 hm
      exact ⟨U ++ byte ')' :: t, by rw [← ht]; simp⟩
  obtain ⟨x, xs, hx⟩ : ∃ x xs, Split mid (byte ')') = x :: xs := by
    cases hs : Split mid (byte ')') with
    | nil => exact absurd hs (Split_ne_nil _ _)
    | cons x xs => exact ⟨x, xs, rfl⟩
  have h3 : Split (U ++ byte ')' :: mid) (byte ')') = U :: x :: xs := by
    rw [Split_append_sep, Split_of_not_mem U _ hc, hx]
    rfl
  simp [linkOfCandidate, h1, h2, h3]

/-- A fragment is passed over exactly when it does not both start with the
host prefix and end with `)`. -/
theorem linkOfCandidate_eq_none (f : Str) :
    linkOfCandidate f = none ↔
      ¬ (HasPrefix f padHost = true ∧ HasSuffix f (utf8 ")") = true) := by
  unfold linkOfCandidate
  by_cases h1 : HasPrefix f padHost = true
  · by_cases h2 : HasSuffix f (utf8 ")") = true
    · simp only [h1, h2, if_true, and_self, not_true_eq_false, iff_false]
      obtain ⟨t, ht⟩ := (HasSuffix_iff _ _).1 h2
      have hu : utf8 ")" = [byte ')'] := rfl
      rw [hu] at ht
      have hs : Split f (byte ')') = Split t (byte ')') ++ [[]] := by
        rw [← ht, Split_append_sep]
        rfl
      have hne := Split_ne_nil t (byte ')')
      cases hts : Split t (byte ')') with
      | nil => exact absurd hts hne
      | cons x xs => simp [hs, hts]
    · simp [h1, h2]
  · simp [h1]

/-- The fragments of a line that holds `(` and then a text `F` without `(`
reaching to the end of the line or to the next `(`: those of the text before
the `(`, then `F`, then the rest. -/
theorem Split_link_line (pre F post : Str) (ho : byte '(' ∉ F)
    (hpost : post = [] ∨ ∃ r, post = byte '(' :: r) :
    ∃ rest, Split (pre ++ byte '(' :: (F ++ post)) (byte '(')
      = Split pre (byte '(') ++ F :: rest := by
  rw [Split_append_sep]
  rcases hpost with rfl | ⟨r, rfl⟩
  · exact ⟨[], by rw [List.append_nil, Split_of_not_mem _ _ ho]⟩
  · refine ⟨Split r (byte '('), ?_⟩
    rw [Split_append_sep, Split_of_not_mem _ _ ho]
    rfl

/-- C1, as the code has it: when a line holds a parenthesised link `(U)`, with
`U` starting with `https://pad.ccc-p.org/` and free of parentheses, and the
text `mid` that follows its `)` up to the next `(` or the end of the line is
empty or itself ends with `)`, and no earlier fragment of the document (the
pieces of its lines between `(` characters) both starts with that prefix and
ends with `)`, then `getFirstLink` returns `U` and no error, whatever text
precedes the `(`. -/
theorem getFirstLink_first_closed_link (padContent : Body) (before after : List Str)
    (pre U mid post : Str)
    (hlines : padContent.lines
      = before ++ (pre ++ byte '(' :: ((U ++ byte ')' :: mid) ++ post)) :: after)
    (hp : HasPrefix U padHost = true) (ho : byte '(' ∉ U) (hc : byte ')' ∉ U)
    (hmid : byte '(' ∉ mid) (hend : mid = [] ∨ HasSuffix mid (utf8 ")") = true)
    (hpost : post = [] ∨ ∃ r, post = byte '(' :: r)
    (hbefore : ∀ l ∈ before, ∀ f ∈ Split l (byte '('),
      ¬ (HasPrefix f padHost = true ∧ HasSuffix f (utf8 ")") = true))
    (hpre : ∀ f ∈ Split pre (byte '('),
      ¬ (HasPrefix f padHost = true ∧ HasSuffix f (utf8 ")") = true)) :
    getFirstLink padContent = (U, none) := by
  have hF : byte '(' ∉ U ++ byte ')' :: mid := by
    simp only [List.mem_append, List.mem_cons, not_or]
    exact ⟨ho, by decide, hmid⟩
  obtain ⟨rest, hsplit⟩ := Split_link_line pre (U ++ byte ')' :: mid) post hF hpost
  have h1 : before.findSome?
      (fun line => (Split line (byte '(')).findSome? linkOfCandidate) = none := by
    rw [List.findSome?_eq_none_iff]
    intro l hl
    rw [List.findSome?_eq_none_iff]
    intro f hf
    exact (linkOfCandidate_eq_none f).2 (hbefore l hl f hf)
  have h2 : (Split pre (byte '(')).findSome? linkOfCandidate = none := by
    rw [List.findSome?_eq_none_iff]
    intro f hf
    exact (linkOfCandidate_eq_none f).2 (hpre f hf)
  have h3 : (Split (pre ++ byte '(' :: ((U ++ byte ')' :: mid) ++ post)) (byte '(')).findSome?
      linkOfCandidate = some U := by
    rw [hsplit, List.findSome?_append, h2]
    simp [List.findSome?, linkOfCandidate_closed U mid hp hc hend]
  unfold getFirstLink
  rw [hlines, List.findSome?_append, h1]
  simp only [List.findSome?, h3, Option.or]

/-- The amended C1 at the one-line document `text (https://pad.ccc-p.org/Foo)`. -/
theorem getFirstLink_first_closed_link_witness :
    getFirstLink ⟨[utf8 "text (https://pad.ccc-p.org/Foo)"], none⟩
      = (utf8 "https://pad.ccc-p.org/Foo", none) :=
  getFirstLink_first_closed_link ⟨[utf8 "text (https://pad.ccc-p.org/Foo)"], none⟩ [] []
    (utf8 "text ") (utf8 "https://pad.ccc-p.org/Foo") [] [] (by decide) (by decide) (by decide)
    (by decide) (by decide) (Or.inl rfl) (Or.inl rfl) (by decide) (by decide)

/-- C1 as stated fails: on the one-line document
`text (https://pad.ccc-p.org/Foo) more` the fragment `https://pad.ccc-p.org/Foo) more`
does not end with `)`, and `getFirstLink` returns the empty string, not the link. -/
theorem getFirstLink_trailing_text_not_found :
    getFirstLink ⟨[utf8 "text (https://pad.ccc-p.org/Foo) more"], none⟩ = ([], none)
      ∧ (getFirstLink ⟨[utf8 "text (https://pad.ccc-p.org/Foo) more"], none⟩).1
          ≠ utf8 "https://pad.ccc-p.org/Foo" := by
  decide

/-! ## C2, C5, C6: the key of the last section -/

/-- C2 at the document `## Summary`, `first line`, `second line`: the map
`getMarkdownContentBySection` returns has the keys `pre-section` and
`Summary`, the last section being stored under its heading text as written,
and it has no key `summary`. -/
theorem getMarkdownContentBySection_only_Summary (mapLower : Str → Str) :
    getMarkdownContentBySection mapLower
        ⟨[utf8 "## Summary", utf8 "first line", utf8 "second line"], none⟩
      = .ok [(utf8 "pre-section", []),
             (utf8 "Summary", [utf8 "first line", utf8 "second line"])]
    ∧ SectionMap.get? [(utf8 "pre-section", []),
             (utf8 "Summary", [utf8 "first line", utf8 "second line"])] (utf8 "summary")
        = none := by
  constructor
  · rfl
  · decide

/-- C5 at the document `## Mukke`, `first`, `## Mukke`, `second`: the lines
`main` reads under key `mukke` are those of the first occurrence, because the
second, being the last section, is stored under `Mukke`. -/
theorem getMarkdownContentBySection_Mukke_twice (mapLower : Str → Str) :
    getMarkdownContentBySection mapLower
        ⟨[utf8 "## Mukke", utf8 "first", utf8 "## Mukke", utf8 "second"], none⟩
      = .ok [(utf8 "pre-section", []), (utf8 "mukke", [utf8 "first"]),
             (utf8 "Mukke", [utf8 "second"])]
    ∧ SectionMap.get? [(utf8 "pre-section", []), (utf8 "mukke", [utf8 "first"]),
             (utf8 "Mukke", [utf8 "second"])] (utf8 "mukke") = some [utf8 "first"] := by
  constructor
  · rfl
  · decide

/-- C6 at the document `intro`, `## Shownotes`, `notes`: the returned map has
the key `Shownotes`, which is not its own lower-casing `shownotes`. -/
theorem getMarkdownContentBySection_last_key_not_lowered (mapLower : Str → Str) :
    (getMarkdownContentBySection mapLower
        ⟨[utf8 "intro", utf8 "## Shownotes", utf8 "notes"], none⟩).toOption.map SectionMap.keys
      = some [utf8 "pre-section", utf8 "Shownotes"]
    ∧ ToLower mapLower (utf8 "Shownotes") = utf8 "shownotes"
    ∧ utf8 "shownotes" ≠ utf8 "Shownotes" := by
  refine ⟨rfl, rfl, by decide⟩

/-! ## C4: the `-l` flag -/

/-- C4, what the code does: every non-empty value of the `-l` flag is
rejected with `pad url must start with https://pad.ccc-p.org/`, whether it
starts with that prefix or not, because the prefix test of line 162 reads the
still empty `padURL`. -/
theorem main_padURL_flag_rejected (get : Get) (padURLPtr : Str) (h : padURLPtr ≠ []) :
    main_padURL get padURLPtr
      = .error (.fatal "pad url must start with https://pad.ccc-p.org/") := by
  have hp : HasPrefix [] padHost = false := by decide
  simp [main_padURL, h, hp]

/-- C4 at `-l https://pad.ccc-p.org/Radio_2023-05-10`, with the network down. -/
theorem main_padURL_flag_rejected_witness :
    main_padURL (fun _ => .error "offline") (utf8 "https://pad.ccc-p.org/Radio_2023-05-10")
      = .error (.fatal "pad url must start with https://pad.ccc-p.org/") :=
  main_padURL_flag_rejected _ _ (by decide)

/-! ## More facts about `Split` and `Join` -/

theorem Split_cons_of_mem (s : Str) (sep : UInt8) (h : sep ∈ s) :
    Split s sep = s.takeWhile (fun b => b != sep)
      :: Split ((s.dropWhile (fun b => b != sep)).drop 1) sep := by
  induction s with
  | nil => simp at h
  | cons c cs ih =>
    by_cases hc : c = sep
    · simp [Split, hc, List.takeWhile, List.dropWhile]
    · have hmem : sep ∈ cs := by
        rcases List.mem_cons.1 h with e | m
        · exact absurd e.symm hc
        · exact m
      have hb : (c != sep) = true := by simpa using hc
      simp [Split, hc, hb, ih hmem, List.takeWhile_cons, List.dropWhile_cons]

theorem takeWhile_ne_of_not_mem (s : Str) (sep : UInt8) (h : sep ∉ s) :
    s.takeWhile (fun b => b != sep) = s := by
  rw [List.takeWhile_eq_self_iff]
  intro b hb
  have : b ≠ sep := fun e => h (e ▸ hb)
  simpa using this

theorem Split_head (s : Str) (sep : UInt8) :
    ∃ rest, Split s sep = s.takeWhile (fun b => b != sep) :: rest := by
  by_cases h : sep ∈ s
  · exact ⟨_, Split_cons_of_mem s sep h⟩
  · exact ⟨[], by rw [Split_of_not_mem s sep h, takeWhile_ne_of_not_mem s sep h]⟩

theorem Split_length_lt_two (s : Str) (sep : UInt8) :
    (Split s sep).length < 2 ↔ sep ∉ s := by
  constructor
  · intro hlen hmem
    rw [Split_cons_of_mem s sep hmem] at hlen
    obtain ⟨rest, hr⟩ := Split_head ((s.dropWhile (fun b => b != sep)).drop 1) sep
    rw [hr] at hlen
    simp only [List.length_cons] at hlen
    omega
  · intro h
    rw [Split_of_not_mem s sep h]
    simp

theorem split_at_first (s : Str) (sep : UInt8) (h : sep ∈ s) :
    s.takeWhile (fun b => b != sep) ++ sep :: (s.dropWhile (fun b => b != sep)).drop 1 = s := by
  induction s with
  | nil => simp at h
  | cons c cs ih =>
    by_cases hc : c = sep
    · simp [hc, List.takeWhile, List.dropWhile]
    · have hmem : sep ∈ cs := by
        rcases List.mem_cons.1 h with e | m
        · exact absurd e.symm hc
        · exact m
      have hb : (c != sep) = true := by simpa using hc
      have ih2 := ih hmem
      simp only [List.drop_one] at ih2
      simp [hb, List.takeWhile_cons, List.dropWhile_cons, ih2]

theorem Join_cons_head (c : UInt8) (x : Str) (xs : List Str) (sep : Str) :
    Join ((c :: x) :: xs) sep = c :: Join (x :: xs) sep := by
  cases xs <;> simp [Join]

theorem Join_Split (s : Str) (sep : UInt8) : Join (Split s sep) [sep] = s := by
  induction s with
  | nil => rfl
  | cons c cs ih =>
    have hne := Split_ne_nil cs sep
    cases hs : Split cs sep with
    | nil => exact absurd hs hne
    | cons x xs =>
      rw [hs] at ih
      by_cases hc : c = sep
      · simp [Split, hc, hs, Join, ih]
      · simp [Split, hc, hs, Join_cons_head, ih]

/-! ## C9: chapters -/

/-- C9: the chapter list is built from the `chapters` lines in order; a line
without a space gives no chapter; a line with a space gives one chapter, whose
Start is the text before the first space and whose Title is all that follows
the first space, so that Start, a space and Title make up the line. -/
theorem main_chapters_by_first_space (contentBySection : SectionMap) (chapter : List Str)
    (h : contentBySection.get? (utf8 "chapters") = some chapter) :
    main_chapters contentBySection
      = chapter.filterMap (fun c =>
          if byte ' ' ∈ c then
            some { Start := c.takeWhile (fun b => b != byte ' ')
                   Title := (c.dropWhile (fun b => b != byte ' ')).drop 1 }
          else none)
    ∧ ∀ c, byte ' ' ∈ c →
        c.takeWhile (fun b => b != byte ' ') ++ utf8 " "
          ++ (c.dropWhile (fun b => b != byte ' ')).drop 1 = c := by
  constructor
  · simp only [main_chapters, h]
    congr 1
    funext c
    by_cases hm : byte ' ' ∈ c
    · have hs := Split_cons_of_mem c (byte ' ') hm
      obtain ⟨rest, hr⟩ := Split_head ((c.dropWhile (fun b => b != byte ' ')).drop 1) (byte ' ')
      have hj := Join_Split ((c.dropWhile (fun b => b != byte ' ')).drop 1) (byte ' ')
      have hu : utf8 " " = [byte ' '] := rfl
      simp only [chapterOf, hs, hm, if_true, hu]
      simp only [hr, List.length_cons, List.headD_cons, List.drop_succ_cons, List.drop_zero]
      rw [← hr, hj]
      simp
    · have hlen := (Split_length_lt_two c (byte ' ')).2 hm
      simp [chapterOf, hlen, hm]
  · intro c hm
    have hu : utf8 " " = [byte ' '] := rfl
    rw [hu]
    simpa using split_at_first c (byte ' ') hm

/-- C9 at the section `00:01:23 Intro music`, `00:01:23`. -/
theorem main_chapters_by_first_space_witness :
    main_chapters [(utf8 "chapters", [utf8 "00:01:23 Intro music", utf8 "00:01:23"])]
      = [{ Start := utf8 "00:01:23", Title := utf8 "Intro music" }] := by
  have h := (main_chapters_by_first_space
    [(utf8 "chapters", [utf8 "00:01:23 Intro music", utf8 "00:01:23"])]
    [utf8 "00:01:23 Intro music", utf8 "00:01:23"] (by decide)).1
  rw [h]
  decide

/-! ## C10: the date extraction -/

theorem Split_get_one (s : Str) (sep : UInt8) (h : sep ∈ s) :
    (Split s sep).get? 1
      = some (((s.dropWhile (fun b => b != sep)).drop 1).takeWhile (fun b => b != sep)) := by
  obtain ⟨rest, hr⟩ := Split_head ((s.dropWhile (fun b => b != sep)).drop 1) sep
  rw [Split_cons_of_mem s sep h, hr]
  rfl

/-- The date extraction, case by case. -/
theorem main_date_eq (padURL : Str) :
    main_date padURL
      = if byte '_' ∉ padURL ∨ (segmentAfterFirstUnderscore padURL).length < 10 then
          .error (.fatal "pad url must contain a date in the format YYYY-MM-DD_")
        else
          .ok ((segmentAfterFirstUnderscore padURL).take 4,
               ((segmentAfterFirstUnderscore padURL).drop 5).take 2,
               ((segmentAfterFirstUnderscore padURL).drop 8).take 2) := by
  by_cases hm : byte '_' ∈ padURL
  · have hlen : ¬ (Split padURL (byte '_')).length < 2 := by
      rw [Split_length_lt_two]
      exact fun h => h hm
    have hget := Split_get_one padURL (byte '_') hm
    by_cases hl : (segmentAfterFirstUnderscore padURL).length < 10
    · have hl2 := hl
      unfold segmentAfterFirstUnderscore at hl2
      simp only [main_date, hlen, hget, if_false, hl2, if_true, hm, not_true_eq_false,
        false_or, hl]
    · have hl2 := hl
      unfold segmentAfterFirstUnderscore at hl2
      have h4 : 0 ≤ 4 ∧ 4 ≤ (segmentAfterFirstUnderscore padURL).length := by omega
      have h7 : 5 ≤ 7 ∧ 7 ≤ (segmentAfterFirstUnderscore padURL).length := by omega
      have h10 : 8 ≤ 10 ∧ 10 ≤ (segmentAfterFirstUnderscore padURL).length := by omega
      have e : ((padURL.dropWhile (fun b => b != byte '_')).drop 1).takeWhile
          (fun b => b != byte '_') = segmentAfterFirstUnderscore padURL := rfl
      simp only [main_date, hlen, hget, if_false, hl2, hm, not_true_eq_false, false_or, hl,
        e, slice, h4, h7, h10, if_true, and_self, List.drop_zero, Nat.sub_zero]
  · have hlen : (Split padURL (byte '_')).length < 2 := (Split_length_lt_two _ _).2 hm
    simp [main_date, hlen, hm]

/-- C10: the date extraction fails exactly when the URL has no `_` or the
segment between its first `_` and the next (or the end) is shorter than 10
bytes, and then by the fatal error of lines 171 and 175; otherwise the three
slices `[0:4]`, `[5:7]`, `[8:10]` of that segment are within bounds and are
the year, month and day. -/
theorem main_date_fails_iff (padURL : Str) :
    ((∃ f, main_date padURL = .error f) ↔
        (byte '_' ∉ padURL ∨ (segmentAfterFirstUnderscore padURL).length < 10))
    ∧ ((byte '_' ∉ padURL ∨ (segmentAfterFirstUnderscore padURL).length < 10) →
        main_date padURL
          = .error (.fatal "pad url must contain a date in the format YYYY-MM-DD_"))
    ∧ (¬ (byte '_' ∉ padURL ∨ (segmentAfterFirstUnderscore padURL).length < 10) →
        ∃ year month day,
          slice (segmentAfterFirstUnderscore padURL) 0 4 = some year
          ∧ slice (segmentAfterFirstUnderscore padURL) 5 7 = some month
          ∧ slice (segmentAfterFirstUnderscore padURL) 8 10 = some day
          ∧ main_date padURL = .ok (year, month, day)) := by
  have he := main_date_eq padURL
  by_cases hc : byte '_' ∉ padURL ∨ (segmentAfterFirstUnderscore padURL).length < 10
  · rw [if_pos hc] at he
    exact ⟨⟨fun _ => hc, fun _ => ⟨_, he⟩⟩, fun _ => he, fun h => absurd hc h⟩
  · rw [if_neg hc] at he
    refine ⟨⟨fun ⟨f, hf⟩ => ?_, fun h => absurd h hc⟩, fun h => absurd h hc, fun _ => ?_⟩
    · rw [he] at hf
      cases hf
    · have hl : 10 ≤ (segmentAfterFirstUnderscore padURL).length := by
        by_contra hlt
        exact hc (Or.inr (by omega))
      have h4 : 0 ≤ 4 ∧ 4 ≤ (segmentAfterFirstUnderscore padURL).length := by omega
      have h7 : 5 ≤ 7 ∧ 7 ≤ (segmentAfterFirstUnderscore padURL).length := by omega
      have h10 : 8 ≤ 10 ∧ 10 ≤ (segmentAfterFirstUnderscore padURL).length := by omega
      refine ⟨_, _, _, ?_, ?_, ?_, he⟩
      · simp [slice, h4]
      · simp [slice, h7]
      · simp [slice, h10]

/-- C10 at `https://pad.ccc-p.org/Radio_2023-05-10`: not malformed, and the
date is extracted. -/
theorem main_date_fails_iff_witness :
    ∃ year month day,
      slice (segmentAfterFirstUnderscore (utf8 "https://pad.ccc-p.org/Radio_2023-05-10")) 0 4
        = some year
      ∧ slice (segmentAfterFirstUnderscore (utf8 "https://pad.ccc-p.org/Radio_2023-05-10")) 5 7
        = some month
      ∧ slice (segmentAfterFirstUnderscore (utf8 "https://pad.ccc-p.org/Radio_2023-05-10")) 8 10
        = some day
      ∧ main_date (utf8 "https://pad.ccc-p.org/Radio_2023-05-10") = .ok (year, month, day) :=
  (main_date_fails_iff (utf8 "https://pad.ccc-p.org/Radio_2023-05-10")).2.2 (by decide)

/-! ## C8: the long summary -/

/-- The date extraction either ends in the fatal error or gives a date. -/
theorem main_date_cases (padURL : Str) :
    main_date padURL = .error (.fatal "pad url must contain a date in the format YYYY-MM-DD_")
      ∨ ∃ year month day, main_date padURL = .ok (year, month, day) := by
  rw [main_date_eq]
  split
  · exact Or.inl rfl
  · exact Or.inr ⟨_, _, _, rfl⟩

/-- The record of line 206 when the date and both required sections are there. -/
theorem main_entry_ok (padURL : Str) (contentBySection : SectionMap)
    (year month day : Str) (shortSummary longSummary : List Str)
    (hd : main_date padURL = .ok (year, month, day))
    (hl : main_longSummary contentBySection = some longSummary)
    (hs : contentBySection.get? (utf8 "summary") = some shortSummary) :
    main_entry padURL contentBySection
      = .ok
          { UUID := utf8 "nt-" ++ year ++ utf8 "-" ++ month ++ utf8 "-" ++ day
            Title := utf8 "CiR am " ++ day ++ utf8 "." ++ month ++ utf8 "." ++ year
            Subtitle := utf8 "Der Chaostreff im Freien Radio Potsdam"
            Summary := Join shortSummary (utf8 "\n")
            PublicationDate :=
              year ++ utf8 "-" ++ month ++ utf8 "-" ++ day ++ utf8 "T00:00:00+02:00"
            Audio :=
              { Url := utf8 "$media_base_url/" ++ year ++ utf8 "_" ++ month ++ utf8 "_" ++ day
                  ++ utf8 "-chaos-im-radio.mp3"
                MimeType := utf8 "audio/mp3" }
            Chapters := []
            LongSummaryMD := utf8 "**Shownotes:**\n" ++ Join longSummary (utf8 "\n") } := by
  simp only [main_entry, hd, hl, hs]

/-- Without a long summary the record of line 206 is never built. -/
theorem main_entry_no_longSummary (padURL : Str) (contentBySection : SectionMap)
    (h : main_longSummary contentBySection = none) :
    ∃ msg, main_entry padURL contentBySection = .error (.fatal msg) := by
  rcases main_date_cases padURL with hd | ⟨year, month, day, hd⟩
  · exact ⟨"pad url must contain a date in the format YYYY-MM-DD_", by simp only [main_entry, hd]⟩
  · exact ⟨"no shownotes Section in Pad", by simp only [main_entry, hd, h]⟩

/-- Without a `summary` section the record of line 206 is never built. -/
theorem main_entry_no_summary (padURL : Str) (contentBySection : SectionMap)
    (h : contentBySection.get? (utf8 "summary") = none) :
    ∃ msg, main_entry padURL contentBySection = .error (.fatal msg) := by
  rcases main_date_cases padURL with hd | ⟨year, month, day, hd⟩
  · exact ⟨"pad url must contain a date in the format YYYY-MM-DD_", by simp only [main_entry, hd]⟩
  · cases hl : main_longSummary contentBySection with
    | none => exact ⟨"no shownotes Section in Pad", by simp only [main_entry, hd, hl]⟩
    | some longSummary =>
      exact ⟨"no Summary Section in Pad", by simp only [main_entry, hd, hl, h]⟩

/-- A failure before line 206 is the failure of the whole assembly. -/
theorem main_record_of_entry_error (getTitle : Str → Except Failure Str) (padURL : Str)
    (contentBySection : SectionMap) (f : Failure)
    (h : main_entry padURL contentBySection = .error f) :
    main_record getTitle padURL contentBySection = .error f := by
  simp [main_record, h]

/-- C8: with the date extracted and a `summary` section present, the long
summary body of line 206 is `**Shownotes:**\n` followed by the `shownotes`
lines joined with newlines when `shownotes` is present, whatever `long summary`
holds, and the same header followed by the `long summary` lines when
`shownotes` is absent and `long summary` present; when both are absent the
assembly ends in a fatal error, for every URL and title fetch. -/
theorem main_entry_longSummaryMD (getTitle : Str → Except Failure Str) (padURL : Str)
    (contentBySection : SectionMap) :
    (∀ year month day shortSummary longSummary,
      main_date padURL = .ok (year, month, day) →
      contentBySection.get? (utf8 "summary") = some shortSummary →
      contentBySection.get? (utf8 "shownotes") = some longSummary →
      ∃ entry, main_entry padURL contentBySection = .ok entry
        ∧ entry.LongSummaryMD = utf8 "**Shownotes:**\n" ++ Join longSummary (utf8 "\n"))
    ∧ (∀ year month day shortSummary longSummary,
      main_date padURL = .ok (year, month, day) →
      contentBySection.get? (utf8 "summary") = some shortSummary →
      contentBySection.get? (utf8 "shownotes") = none →
      contentBySection.get? (utf8 "long summary") = some longSummary →
      ∃ entry, main_entry padURL contentBySection = .ok entry
        ∧ entry.LongSummaryMD = utf8 "**Shownotes:**\n" ++ Join longSummary (utf8 "\n"))
    ∧ (contentBySection.get? (utf8 "shownotes") = none →
      contentBySection.get? (utf8 "long summary") = none →
      ∃ msg, main_record getTitle padURL contentBySection = .error (.fatal msg)) := by
  refine ⟨?_, ?_, ?_⟩
  · intro year month day shortSummary longSummary hd hs hl
    have h : main_longSummary contentBySection = some longSummary := by
      simp [main_longSummary, hl]
    exact ⟨_, main_entry_ok padURL contentBySection year month day shortSummary longSummary
      hd h hs, rfl⟩
  · intro year month day shortSummary longSummary hd hs hn hl
    have h : main_longSummary contentBySection = some longSummary := by
      simp [main_longSummary, hn, hl]
    exact ⟨_, main_entry_ok padURL contentBySection year month day shortSummary longSummary
      hd h hs, rfl⟩
  · intro hn hl
    have h : main_longSummary contentBySection = none := by
      simp [main_longSummary, hn, hl]
    obtain ⟨msg, hm⟩ := main_entry_no_longSummary padURL contentBySection h
    exact ⟨msg, main_record_of_entry_error getTitle padURL contentBySection _ hm⟩

/-- C8 at a map that has both `shownotes` and `long summary`: the body is
made from `shownotes`. -/
theorem main_entry_longSummaryMD_witness :
    ∃ entry,
      main_entry (utf8 "https://pad.ccc-p.org/Radio_2023-05-10")
          [(utf8 "long summary", [utf8 "old"]), (utf8 "summary", [utf8 "s"]),
           (utf8 "shownotes", [utf8 "a", utf8 "b"])] = .ok entry
      ∧ entry.LongSummaryMD
          = utf8 "**Shownotes:**\n" ++ Join [utf8 "a", utf8 "b"] (utf8 "\n") :=
  (main_entry_longSummaryMD (fun u => .ok u) (utf8 "https://pad.ccc-p.org/Radio_2023-05-10")
      [(utf8 "long summary", [utf8 "old"]), (utf8 "summary", [utf8 "s"]),
       (utf8 "shownotes", [utf8 "a", utf8 "b"])]).1
    (utf8 "2023") (utf8 "05") (utf8 "10") [utf8 "s"] [utf8 "a", utf8 "b"]
    (by decide) (by decide) (by decide)

/-! ## C7: no `summary` section -/

theorem SectionMap.get?_set (m : SectionMap) (k k' : Str) (v : List Str) :
    (m.set k v).get? k' = if k = k' then some v else m.get? k' := by
  induction m with
  | nil => simp [SectionMap.set, SectionMap.get?]
  | cons p rest ih =>
    obtain ⟨k0, v0⟩ := p
    by_cases h0 : k0 = k
    · by_cases h1 : k = k'
      · simp [SectionMap.set, SectionMap.get?, h0, h1]
      · have h2 : ¬ k0 = k' := h0 ▸ h1
        simp [SectionMap.set, SectionMap.get?, h0, h1]
    · by_cases h1 : k0 = k'
      · subst h1
        have h2 : ¬ k = k0 := fun e => h0 e.symm
        simp [SectionMap.set, SectionMap.get?, h0, h2]
      · simp [SectionMap.set, SectionMap.get?, h0, h1, ih]

/-- A heading line none of whose kind lower-cases to `summary` keeps the key
`summary` out of the map, and out of the section being read. -/
theorem scan_no_summary (mapLower : Str → Str) (lines : List Str) (st : SplitState)
    (h : ∀ line ∈ lines, HasPrefix line (utf8 "## ") = true →
      ToLower mapLower (TrimPrefix line (utf8 "## ")) ≠ utf8 "summary")
    (hmap : st.contentBySection.get? (utf8 "summary") = none)
    (hcur : ToLower mapLower st.currentSection ≠ utf8 "summary") :
    (lines.foldl (sectionStep mapLower) st).contentBySection.get? (utf8 "summary") = none
    ∧ ToLower mapLower (lines.foldl (sectionStep mapLower) st).currentSection
        ≠ utf8 "summary" := by
  induction lines generalizing st with
  | nil => exact ⟨hmap, hcur⟩
  | cons line rest ih =>
    rw [List.foldl_cons]
    apply ih
    · exact fun l hl => h l (List.mem_cons_of_mem _ hl)
    · unfold sectionStep
      by_cases h1 : HasPrefix line (utf8 "## ") = true
      · simp only [h1, if_true]
        rw [SectionMap.get?_set, if_neg hcur]
        exact hmap
      · by_cases h2 : HasPrefix line (utf8 "#") = true
        · simp only [h1, h2, if_true, if_false]
          exact hmap
        · simp only [h1, h2, if_false]
          exact hmap
    · unfold sectionStep
      by_cases h1 : HasPrefix line (utf8 "## ") = true
      · simp only [h1, if_true]
        exact h line (List.mem_cons_self _ _) h1
      · by_cases h2 : HasPrefix line (utf8 "#") = true
        · simp only [h1, h2, if_true, if_false]
          exact hcur
        · simp only [h1, h2, if_false]
          exact hcur

/-- C7: when no `## ` heading of the document has a text that lower-cases to
`summary`, the assembly ends in a fatal error and gives no record, for every
episode URL, every title fetch and whatever other sections there are. -/
theorem main_assemble_no_summary_heading (mapLower : Str → Str)
    (getTitle : Str → Except Failure Str) (padURL : Str) (padContent : Body)
    (h : ∀ line ∈ padContent.lines, HasPrefix line (utf8 "## ") = true →
      ToLower mapLower (TrimPrefix line (utf8 "## ")) ≠ utf8 "summary") :
    ∃ msg, main_assemble mapLower getTitle padURL padContent = .error (.fatal msg) := by
  have hinv := scan_no_summary mapLower padContent.lines
    { currentSection := utf8 "pre-section", currentSectionContent := [], contentBySection := [] }
    h rfl (by
      have e : ToLower mapLower (utf8 "pre-section") = utf8 "pre-section" := rfl
      rw [e]
      decide)
  have hraw : (scanSections mapLower padContent.lines).currentSection ≠ utf8 "summary" := by
    intro e
    apply hinv.2
    have e2 : ToLower mapLower (utf8 "summary") = utf8 "summary" := rfl
    unfold scanSections at e
    rw [e, e2]
  unfold main_assemble getMarkdownContentBySection
  cases herr : padContent.err with
  | some err => exact ⟨err, rfl⟩
  | none =>
    simp only []
    have hget : ((scanSections mapLower padContent.lines).contentBySection.set
        (scanSections mapLower padContent.lines).currentSection
        (scanSections mapLower padContent.lines).currentSectionContent).get? (utf8 "summary")
          = none := by
      rw [SectionMap.get?_set, if_neg hraw]
      exact hinv.1
    obtain ⟨msg, hm⟩ := main_entry_no_summary padURL _ hget
    exact ⟨msg, main_record_of_entry_error getTitle padURL _ _ hm⟩

/-- C7 at a document with `Shownotes` and `Chapters` sections and no summary. -/
theorem main_assemble_no_summary_heading_witness :
    ∃ msg, main_assemble id (fun u => .ok u) (utf8 "https://pad.ccc-p.org/Radio_2023-05-10")
      ⟨[utf8 "## Shownotes", utf8 "notes", utf8 "## Chapters", utf8 "00:00:00 Start",
        utf8 "## End"], none⟩ = .error (.fatal msg) :=
  main_assemble_no_summary_heading id (fun u => .ok u)
    (utf8 "https://pad.ccc-p.org/Radio_2023-05-10")
    ⟨[utf8 "## Shownotes", utf8 "notes", utf8 "## Chapters", utf8 "00:00:00 Start",
      utf8 "## End"], none⟩ (by decide)

/-! ## C3: the date in the URL -/

theorem dropWhile_ne_append_sep (pre x : Str) (sep : UInt8) (h : sep ∉ pre) :
    (pre ++ sep :: x).dropWhile (fun b => b != sep) = sep :: x := by
  induction pre with
  | nil => simp [List.dropWhile_cons]
  | cons c cs ih =>
    have hc : (c != sep) = true := by
      have : c ≠ sep := fun e => h (by simp [e])
      simpa using this
    have hcs : sep ∉ cs := fun m => h (List.mem_cons_of_mem _ m)
    simp [List.dropWhile_cons, hc, ih hcs]

theorem takeWhile_ne_append (d r : Str) (sep : UInt8) (h : sep ∉ d) :
    (d ++ r).takeWhile (fun b => b != sep) = d ++ r.takeWhile (fun b => b != sep) := by
  induction d with
  | nil => rfl
  | cons c cs ih =>
    have hc : (c != sep) = true := by
      have : c ≠ sep := fun e => h (by simp [e])
      simpa using this
    have hcs : sep ∉ cs := fun m => h (List.mem_cons_of_mem _ m)
    simp [List.takeWhile_cons, hc, ih hcs]

/-- The date extraction on a URL whose first `_` is followed by `Y-M-D`. -/
theorem main_date_after_first_underscore (pre Y M D rest : Str)
    (hpre : byte '_' ∉ pre)
    (hY : Y.length = 4) (hM : M.length = 2) (hD : D.length = 2)
    (hYu : byte '_' ∉ Y) (hMu : byte '_' ∉ M) (hDu : byte '_' ∉ D) :
    main_date (pre ++ utf8 "_" ++ Y ++ utf8 "-" ++ M ++ utf8 "-" ++ D ++ rest)
      = .ok (Y, M, D) := by
  have hu : utf8 "_" = [byte '_'] := rfl
  have hd : utf8 "-" = [byte '-'] := rfl
  have hne : byte '_' ≠ byte '-' := by decide
  have hurl : pre ++ utf8 "_" ++ Y ++ utf8 "-" ++ M ++ utf8 "-" ++ D ++ rest
      = pre ++ byte '_' :: ((Y ++ byte '-' :: (M ++ byte '-' :: D)) ++ rest) := by
    simp [hu, hd]
  have hdate : byte '_' ∉ Y ++ byte '-' :: (M ++ byte '-' :: D) := by
    simp only [List.mem_append, List.mem_cons, not_or]
    exact ⟨hYu, hne, hMu, hne, hDu⟩
  have hseg : segmentAfterFirstUnderscore
      (pre ++ utf8 "_" ++ Y ++ utf8 "-" ++ M ++ utf8 "-" ++ D ++ rest)
      = Y ++ (byte '-' :: (M ++ (byte '-' :: (D ++ rest.takeWhile (fun b => b != byte '_'))))) := by
    unfold segmentAfterFirstUnderscore
    rw [hurl, dropWhile_ne_append_sep _ _ _ hpre]
    simp only [List.drop_succ_cons, List.drop_zero]
    rw [takeWhile_ne_append _ _ _ hdate]
    simp
  have hmem : byte '_' ∈ pre ++ utf8 "_" ++ Y ++ utf8 "-" ++ M ++ utf8 "-" ++ D ++ rest := by
    rw [hurl]
    simp
  have hlen : ¬ (segmentAfterFirstUnderscore
      (pre ++ utf8 "_" ++ Y ++ utf8 "-" ++ M ++ utf8 "-" ++ D ++ rest)).length < 10 := by
    rw [hseg]
    simp only [List.length_append, List.length_cons]
    omega
  rw [main_date_eq, if_neg (by
    intro h
    rcases h with h | h
    · exact h hmem
    · exact hlen h)]
  rw [hseg]
  have e1 : (Y ++ (byte '-' :: (M ++ (byte '-' :: (D ++ rest.takeWhile (fun b => b != byte '_')))))).take 4
      = Y := List.take_left' hY
  have e2 : (Y ++ (byte '-' :: (M ++ (byte '-' :: (D ++ rest.takeWhile (fun b => b != byte '_')))))).drop 5
      = M ++ (byte '-' :: (D ++ rest.takeWhile (fun b => b != byte '_'))) := by
    have : Y ++ (byte '-' :: (M ++ (byte '-' :: (D ++ rest.takeWhile (fun b => b != byte '_')))))
        = (Y ++ [byte '-']) ++ (M ++ (byte '-' :: (D ++ rest.takeWhile (fun b => b != byte '_')))) := by
      simp
    rw [this]
    exact List.drop_left' (by simp [hY])
  have e3 : (Y ++ (byte '-' :: (M ++ (byte '-' :: (D ++ rest.takeWhile (fun b => b != byte '_')))))).drop 8
      = D ++ rest.takeWhile (fun b => b != byte '_') := by
    have : Y ++ (byte '-' :: (M ++ (byte '-' :: (D ++ rest.takeWhile (fun b => b != byte '_')))))
        = (Y ++ [byte '-'] ++ M ++ [byte '-']) ++ (D ++ rest.takeWhile (fun b => b != byte '_')) := by
      simp
    rw [this]
    exact List.drop_left' (by simp [hY, hM])
  rw [e1, e2, e3, List.take_left' hM, List.take_left' hD]

/-- With every title fetch succeeding the loop over the `mukke` lines ends
with a long summary. -/
theorem mukkeLoop_ok (getTitle : Str → Except Failure Str)
    (ht : ∀ u, ∃ t, getTitle u = .ok t) (mukke : List Str) (md : Str) :
    ∃ md', mukkeLoop getTitle mukke md = .ok md' := by
  induction mukke generalizing md with
  | nil => exact ⟨md, rfl⟩
  | cons m rest ih =>
    unfold mukkeLoop
    by_cases hl : findFirstLink m = []
    · simp only [hl, if_true]
      exact ih md
    · obtain ⟨t, htt⟩ := ht (findFirstLink m)
      simp only [hl, if_false, htt]
      exact ih _

/-- What `main_record` adds to the record of line 206: chapters and music
credits, the other fields staying as they are. -/
theorem main_record_of_entry_ok (getTitle : Str → Except Failure Str)
    (ht : ∀ u, ∃ t, getTitle u = .ok t) (padURL : Str) (contentBySection : SectionMap)
    (entry : CiREntry) (h : main_entry padURL contentBySection = .ok entry) :
    ∃ md, main_record getTitle padURL contentBySection
      = .ok { entry with Chapters := main_chapters contentBySection, LongSummaryMD := md } := by
  have hm : ∃ md, main_mukke getTitle contentBySection entry.LongSummaryMD = .ok md := by
    unfold main_mukke
    cases contentBySection.get? (utf8 "mukke") with
    | none => exact ⟨_, rfl⟩
    | some mukke => exact mukkeLoop_ok getTitle ht mukke _
  obtain ⟨md, hmd⟩ := hm
  exact ⟨md, by simp only [main_record, h, hmd]⟩

/-- C3, as the code has it: when the `YYYY-MM-DD` date stands right after the
first `_` of the episode URL, the date extraction gives that year, month and
day, and with a `summary` section, a `shownotes` or `long summary` section,
and every title fetch succeeding, the record has UUID `nt-YYYY-MM-DD`, Title
`CiR am DD.MM.YYYY` and PublicationDate `YYYY-MM-DDT00:00:00+02:00`. -/
theorem main_record_date_after_first_underscore (getTitle : Str → Except Failure Str)
    (pre Y M D rest : Str) (contentBySection : SectionMap)
    (hpre : byte '_' ∉ pre)
    (hY : Y.length = 4) (hM : M.length = 2) (hD : D.length = 2)
    (hYu : byte '_' ∉ Y) (hMu : byte '_' ∉ M) (hDu : byte '_' ∉ D)
    (hs : (contentBySection.get? (utf8 "summary")).isSome = true)
    (hl : (contentBySection.get? (utf8 "shownotes")).isSome = true
      ∨ (contentBySection.get? (utf8 "long summary")).isSome = true)
    (ht : ∀ u, ∃ t, getTitle u = .ok t) :
    main_date (pre ++ utf8 "_" ++ Y ++ utf8 "-" ++ M ++ utf8 "-" ++ D ++ rest) = .ok (Y, M, D)
    ∧ ∃ entry,
        main_record getTitle (pre ++ utf8 "_" ++ Y ++ utf8 "-" ++ M ++ utf8 "-" ++ D ++ rest)
          contentBySection = .ok entry
        ∧ entry.UUID = utf8 "nt-" ++ Y ++ utf8 "-" ++ M ++ utf8 "-" ++ D
        ∧ entry.Title = utf8 "CiR am " ++ D ++ utf8 "." ++ M ++ utf8 "." ++ Y
        ∧ entry.PublicationDate
            = Y ++ utf8 "-" ++ M ++ utf8 "-" ++ D ++ utf8 "T00:00:00+02:00" := by
  have hd := main_date_after_first_underscore pre Y M D rest hpre hY hM hD hYu hMu hDu
  refine ⟨hd, ?_⟩
  obtain ⟨shortSummary, hs'⟩ := Option.isSome_iff_exists.1 hs
  have hls : ∃ longSummary, main_longSummary contentBySection = some longSummary := by
    unfold main_longSummary
    cases h1 : contentBySection.get? (utf8 "shownotes") with
    | some v => exact ⟨v, rfl⟩
    | none =>
      rw [h1] at hl
      rcases hl with h | h
      · simp at h
      · exact Option.isSome_iff_exists.1 h
  obtain ⟨longSummary, hl'⟩ := hls
  have he := main_entry_ok _ contentBySection Y M D shortSummary longSummary hd hl' hs'
  obtain ⟨md, hr⟩ := main_record_of_entry_ok getTitle ht _ contentBySection _ he
  exact ⟨_, hr, rfl, rfl, rfl⟩

/-- C3 as amended at `https://pad.ccc-p.org/Radio_2023-05-10_something`. -/
theorem main_record_date_after_first_underscore_witness :
    main_date (utf8 "https://pad.ccc-p.org/Radio" ++ utf8 "_" ++ utf8 "2023" ++ utf8 "-"
        ++ utf8 "05" ++ utf8 "-" ++ utf8 "10" ++ utf8 "_something")
      = .ok (utf8 "2023", utf8 "05", utf8 "10")
    ∧ ∃ entry,
        main_record (fun u => .ok u)
          (utf8 "https://pad.ccc-p.org/Radio" ++ utf8 "_" ++ utf8 "2023" ++ utf8 "-"
            ++ utf8 "05" ++ utf8 "-" ++ utf8 "10" ++ utf8 "_something")
          [(utf8 "summary", [utf8 "s"]), (utf8 "shownotes", [utf8 "n"])] = .ok entry
        ∧ entry.UUID = utf8 "nt-" ++ utf8 "2023" ++ utf8 "-" ++ utf8 "05" ++ utf8 "-" ++ utf8 "10"
        ∧ entry.Title
            = utf8 "CiR am " ++ utf8 "10" ++ utf8 "." ++ utf8 "05" ++ utf8 "." ++ utf8 "2023"
        ∧ entry.PublicationDate
            = utf8 "2023" ++ utf8 "-" ++ utf8 "05" ++ utf8 "-" ++ utf8 "10"
                ++ utf8 "T00:00:00+02:00" :=
  main_record_date_after_first_underscore (fun u => .ok u) (utf8 "https://pad.ccc-p.org/Radio")
    (utf8 "2023") (utf8 "05") (utf8 "10") (utf8 "_something")
    [(utf8 "summary", [utf8 "s"]), (utf8 "shownotes", [utf8 "n"])]
    (by decide) (by decide) (by decide) (by decide) (by decide) (by decide) (by decide)
    (by decide) (Or.inl (by decide)) (fun u => ⟨u, rfl⟩)

/-- C3 as stated fails: in `https://pad.ccc-p.org/2023-05-10_something` the
date stands before the first `_`; the segment after it is `something`, of 9
bytes, and the assembly ends in the fatal error of line 175 although the
required sections are present. -/
theorem main_record_date_before_underscore_fails :
    main_date (utf8 "https://pad.ccc-p.org/2023-05-10_something")
      = .error (.fatal "pad url must contain a date in the format YYYY-MM-DD_")
    ∧ main_record (fun u => .ok u) (utf8 "https://pad.ccc-p.org/2023-05-10_something")
        [(utf8 "summary", [utf8 "s"]), (utf8 "shownotes", [utf8 "n"])]
      = .error (.fatal "pad url must contain a date in the format YYYY-MM-DD_") := by
  decide

/-! ## C11: the date fields of the record -/

/-- A record that `main_record` returns has its date fields made from the
year, month and day of the date extraction. -/
theorem main_record_fields (getTitle : Str → Except Failure Str) (padURL : Str)
    (contentBySection : SectionMap) (entry : CiREntry)
    (h : main_record getTitle padURL contentBySection = .ok entry) :
    ∃ year month day, main_date padURL = .ok (year, month, day)
      ∧ entry.UUID = utf8 "nt-" ++ year ++ utf8 "-" ++ month ++ utf8 "-" ++ day
      ∧ entry.Title = utf8 "CiR am " ++ day ++ utf8 "." ++ month ++ utf8 "." ++ year
      ∧ entry.PublicationDate
          = year ++ utf8 "-" ++ month ++ utf8 "-" ++ day ++ utf8 "T00:00:00+02:00"
      ∧ entry.Audio.Url
          = utf8 "$media_base_url/" ++ year ++ utf8 "_" ++ month ++ utf8 "_" ++ day
              ++ utf8 "-chaos-im-radio.mp3" := by
  unfold main_record at h
  cases he : main_entry padURL contentBySection with
  | error f => simp only [he] at h; cases h
  | ok e0 =>
    cases hm : main_mukke getTitle contentBySection e0.LongSummaryMD with
    | error f => simp only [he, hm] at h; cases h
    | ok md =>
      simp only [he, hm, Except.ok.injEq] at h
      subst h
      unfold main_entry at he
      cases hd : main_date padURL with
      | error f => simp only [hd] at he; cases he
      | ok ymd =>
        obtain ⟨year, month, day⟩ := ymd
        cases hl : main_longSummary contentBySection with
        | none => simp only [hd, hl] at he; cases he
        | some longSummary =>
          cases hs : contentBySection.get? (utf8 "summary") with
          | none => simp only [hd, hl, hs] at he; cases he
          | some shortSummary =>
            simp only [hd, hl, hs, Except.ok.injEq] at he
            subst he
            exact ⟨year, month, day, rfl, rfl, rfl, rfl, rfl⟩

theorem segmentAfterFirstUnderscore_of_not_mem (padURL : Str) (h : byte '_' ∉ padURL) :
    segmentAfterFirstUnderscore padURL = [] := by
  have hd : padURL.dropWhile (fun b => b != byte '_') = [] := by
    rw [List.dropWhile_eq_nil_iff]
    intro b hb
    have : b ≠ byte '_' := fun e => h (e ▸ hb)
    simpa using this
  simp [segmentAfterFirstUnderscore, hd]

/-- The three slices of a segment that begins with `Y-M-D`. -/
theorem date_slices (Y M D tail : Str) (hY : Y.length = 4) (hM : M.length = 2)
    (hD : D.length = 2) :
    (Y ++ utf8 "-" ++ M ++ utf8 "-" ++ D ++ tail).take 4 = Y
    ∧ ((Y ++ utf8 "-" ++ M ++ utf8 "-" ++ D ++ tail).drop 5).take 2 = M
    ∧ ((Y ++ utf8 "-" ++ M ++ utf8 "-" ++ D ++ tail).drop 8).take 2 = D := by
  have hd : utf8 "-" = [byte '-'] := rfl
  refine ⟨?_, ?_, ?_⟩
  · have e : Y ++ utf8 "-" ++ M ++ utf8 "-" ++ D ++ tail
        = Y ++ (utf8 "-" ++ M ++ utf8 "-" ++ D ++ tail) := by simp
    rw [e]
    exact List.take_left' hY
  · have e : Y ++ utf8 "-" ++ M ++ utf8 "-" ++ D ++ tail
        = (Y ++ utf8 "-") ++ (M ++ (utf8 "-" ++ D ++ tail)) := by simp
    rw [e, List.drop_left' (by simp [hY, hd])]
    exact List.take_left' hM
  · have e : Y ++ utf8 "-" ++ M ++ utf8 "-" ++ D ++ tail
        = (Y ++ utf8 "-" ++ M ++ utf8 "-") ++ (D ++ tail) := by simp
    rw [e, List.drop_left' (by simp [hY, hM, hd])]
    exact List.take_left' hD

/-- C11: when the second `_`-delimited segment of the episode URL begins with
the ten bytes `YYYY-MM-DD` (and the required sections are present and every
title fetch succeeds), the record has UUID `nt-` followed by those ten bytes,
Title `CiR am DD.MM.YYYY`, PublicationDate those ten bytes followed by
`T00:00:00+02:00`, and Audio URL `$media_base_url/YYYY_MM_DD-chaos-im-radio.mp3`;
and any record made from a URL with the same year, month and day, whatever
its sections and title fetch, has the same UUID and Title. -/
theorem main_record_date_fields (getTitle : Str → Except Failure Str)
    (padURL Y M D tail : Str) (contentBySection : SectionMap)
    (hseg : segmentAfterFirstUnderscore padURL = Y ++ utf8 "-" ++ M ++ utf8 "-" ++ D ++ tail)
    (hY : Y.length = 4) (hM : M.length = 2) (hD : D.length = 2)
    (hs : (contentBySection.get? (utf8 "summary")).isSome = true)
    (hl : (contentBySection.get? (utf8 "shownotes")).isSome = true
      ∨ (contentBySection.get? (utf8 "long summary")).isSome = true)
    (ht : ∀ u, ∃ t, getTitle u = .ok t) :
    (∃ entry, main_record getTitle padURL contentBySection = .ok entry
      ∧ entry.UUID = utf8 "nt-" ++ (Y ++ utf8 "-" ++ M ++ utf8 "-" ++ D)
      ∧ entry.Title = utf8 "CiR am " ++ D ++ utf8 "." ++ M ++ utf8 "." ++ Y
      ∧ entry.PublicationDate
          = (Y ++ utf8 "-" ++ M ++ utf8 "-" ++ D) ++ utf8 "T00:00:00+02:00"
      ∧ entry.Audio.Url
          = utf8 "$media_base_url/" ++ Y ++ utf8 "_" ++ M ++ utf8 "_" ++ D
              ++ utf8 "-chaos-im-radio.mp3")
    ∧ ∀ (getTitle' : Str → Except Failure Str) (padURL' : Str)
        (contentBySection' : SectionMap) (entry entry' : CiREntry),
        main_date padURL' = main_date padURL →
        main_record getTitle padURL contentBySection = .ok entry →
        main_record getTitle' padURL' contentBySection' = .ok entry' →
        entry'.UUID = entry.UUID ∧ entry'.Title = entry.Title := by
  have hlenseg : ¬ (segmentAfterFirstUnderscore padURL).length < 10 := by
    have hdash : (utf8 "-").length = 1 := rfl
    rw [hseg]
    simp only [List.length_append, hdash]
    omega
  have hmem : byte '_' ∈ padURL := by
    by_contra hn
    rw [segmentAfterFirstUnderscore_of_not_mem padURL hn] at hlenseg
    simp at hlenseg
  obtain ⟨e1, e2, e3⟩ := date_slices Y M D tail hY hM hD
  have hd : main_date padURL = .ok (Y, M, D) := by
    rw [main_date_eq, if_neg (by
      intro h
      rcases h with h | h
      · exact h hmem
      · exact hlenseg h)]
    rw [hseg, e1, e2, e3]
  constructor
  · obtain ⟨shortSummary, hs'⟩ := Option.isSome_iff_exists.1 hs
    have hls : ∃ longSummary, main_longSummary contentBySection = some longSummary := by
      unfold main_longSummary
      cases h1 : contentBySection.get? (utf8 "shownotes") with
      | some v => exact ⟨v, rfl⟩
      | none =>
        rw [h1] at hl
        rcases hl with h | h
        · simp at h
        · exact Option.isSome_iff_exists.1 h
    obtain ⟨longSummary, hl'⟩ := hls
    have he := main_entry_ok _ contentBySection Y M D shortSummary longSummary hd hl' hs'
    obtain ⟨md, hr⟩ := main_record_of_entry_ok getTitle ht _ contentBySection _ he
    refine ⟨_, hr, ?_, rfl, ?_, rfl⟩
    · simp
    · simp
  · intro getTitle' padURL' contentBySection' entry entry' hsame h1 h2
    obtain ⟨y, m, d, hd1, hu1, ht1, _, _⟩ := main_record_fields _ _ _ _ h1
    obtain ⟨y', m', d', hd2, hu2, ht2, _, _⟩ := main_record_fields _ _ _ _ h2
    rw [hsame, hd1] at hd2
    simp only [Except.ok.injEq, Prod.mk.injEq] at hd2
    obtain ⟨rfl, rfl, rfl⟩ := hd2
    exact ⟨by rw [hu1, hu2], by rw [ht1, ht2]⟩

/-- C11 at `https://pad.ccc-p.org/Radio_2023-05-10`. -/
theorem main_record_date_fields_witness :
    ∃ entry, main_record (fun u => .ok u) (utf8 "https://pad.ccc-p.org/Radio_2023-05-10")
        [(utf8 "summary", [utf8 "s"]), (utf8 "long summary", [utf8 "n"])] = .ok entry
      ∧ entry.UUID = utf8 "nt-" ++ (utf8 "2023" ++ utf8 "-" ++ utf8 "05" ++ utf8 "-" ++ utf8 "10")
      ∧ entry.Title
          = utf8 "CiR am " ++ utf8 "10" ++ utf8 "." ++ utf8 "05" ++ utf8 "." ++ utf8 "2023"
      ∧ entry.PublicationDate
          = (utf8 "2023" ++ utf8 "-" ++ utf8 "05" ++ utf8 "-" ++ utf8 "10")
              ++ utf8 "T00:00:00+02:00"
      ∧ entry.Audio.Url
          = utf8 "$media_base_url/" ++ utf8 "2023" ++ utf8 "_" ++ utf8 "05" ++ utf8 "_"
              ++ utf8 "10" ++ utf8 "-chaos-im-radio.mp3" :=
  (main_record_date_fields (fun u => .ok u) (utf8 "https://pad.ccc-p.org/Radio_2023-05-10")
    (utf8 "2023") (utf8 "05") (utf8 "10") []
    [(utf8 "summary", [utf8 "s"]), (utf8 "long summary", [utf8 "n"])]
    (by decide) (by decide) (by decide) (by decide) (by decide) (Or.inr (by decide))
    (fun u => ⟨u, rfl⟩)).1

/-! ## C13: the YAML keys -/

/-- C13 on the declarations of lines 19-41: the top-level keys are `uuid`,
`title`, `subtitle`, `summary`, `publicationDate`, `audio`, `chapters`,
`long_summary_md` and the keys of a chapter are `start` and `title`, but the
keys inside `audio` are `url` and `mimetype`: `MimeType` has no struct tag,
its tag text being part of a comment, and is written under its lower-cased
name, not under `mimeType`.  The last part is a run of `main` that reaches
line 234 with an `audio` value to write. -/
theorem yamlKey_of_record (mapLower : Str → Str) :
    CiREntry.fields.map (yamlKey mapLower)
      = [utf8 "uuid", utf8 "title", utf8 "subtitle", utf8 "summary", utf8 "publicationDate",
         utf8 "audio", utf8 "chapters", utf8 "long_summary_md"]
    ∧ CiRChapter.fields.map (yamlKey mapLower) = [utf8 "start", utf8 "title"]
    ∧ CiRaudio.fields.map (yamlKey mapLower) = [utf8 "url", utf8 "mimetype"]
    ∧ utf8 "mimetype" ≠ utf8 "mimeType"
    ∧ (main mapLower
        (fun url =>
          if url = utf8 "https://pad.ccc-p.org/Radio/download" then
            .ok ⟨200, ⟨[utf8 "- [10.05.](https://pad.ccc-p.org/Radio_2023-05-10)"], none⟩⟩
          else if url = utf8 "https://pad.ccc-p.org/Radio_2023-05-10/download" then
            .ok ⟨200, ⟨[utf8 "## Summary", utf8 "s", utf8 "## Shownotes", utf8 "n",
              utf8 "## end"], none⟩⟩
          else .error "no such host")
        []).toOption.map (fun entry => entry.Audio)
      = some ⟨utf8 "$media_base_url/2023_05_10-chaos-im-radio.mp3", utf8 "audio/mp3"⟩ := by
  refine ⟨rfl, rfl, rfl, by decide, rfl⟩

/-! ## C14: findFirstLink -/

theorem Split_no_sep (s : Str) (sep : UInt8) : ∀ t ∈ Split s sep, sep ∉ t := by
  induction s with
  | nil =>
    intro t ht
    simp only [Split, List.mem_singleton] at ht
    subst ht
    simp
  | cons c cs ih =>
    intro t ht
    by_cases hc : c = sep
    · simp only [Split, hc, if_true, List.mem_cons] at ht
      rcases ht with rfl | ht
      · simp
      · exact ih t ht
    · cases hs : Split cs sep with
      | nil => exact absurd hs (Split_ne_nil cs sep)
      | cons x xs =>
        simp only [Split, hc, if_false, hs, List.mem_cons] at ht
        rcases ht with rfl | ht
        · have hx : sep ∉ x := ih x (by rw [hs]; exact List.mem_cons_self _ _)
          intro hm
          rcases List.mem_cons.1 hm with e | m
          · exact hc e.symm
          · exact hx m
        · exact ih t (by rw [hs]; exact List.mem_cons_of_mem _ ht)

/-- C14, as the code has it: `findFirstLink` cuts the line at every space
byte (the tokens, joined by single spaces, give back the line, and no token
holds a space; a tab is not a separator) and returns the first token that
starts with `http`; it returns the empty string exactly when no such token
starts with `http`. -/
theorem findFirstLink_space_tokens (line : Str) :
    Join (Split line (byte ' ')) (utf8 " ") = line
    ∧ (∀ t ∈ Split line (byte ' '), byte ' ' ∉ t)
    ∧ (∀ before t after, Split line (byte ' ') = before ++ t :: after →
        HasPrefix t (utf8 "http") = true →
        (∀ b ∈ before, HasPrefix b (utf8 "http") = false) →
        findFirstLink line = t)
    ∧ (findFirstLink line = [] ↔
        ∀ t ∈ Split line (byte ' '), HasPrefix t (utf8 "http") = false) := by
  refine ⟨Join_Split line (byte ' '), Split_no_sep line (byte ' '), ?_, ?_⟩
  · intro before t after hsplit ht hb
    have hnone : before.find? (fun c => HasPrefix c (utf8 "http")) = none := by
      rw [List.find?_eq_none]
      intro b hbm
      simp [hb b hbm]
    unfold findFirstLink
    rw [hsplit, List.find?_append, hnone]
    simp [List.find?_cons, ht]
  · unfold findFirstLink
    cases hf : (Split line (byte ' ')).find? (fun c => HasPrefix c (utf8 "http")) with
    | none =>
      simp only [true_iff]
      intro t ht
      have := List.find?_eq_none.1 hf t ht
      simpa using this
    | some t =>
      have hp : HasPrefix t (utf8 "http") = true :=
        @List.find?_some _ (fun c => HasPrefix c (utf8 "http")) t _ hf
      have hmem : t ∈ Split line (byte ' ') := List.mem_of_find?_eq_some hf
      constructor
      · intro ht
        simp only at ht
        subst ht
        exact absurd hp (by decide)
      · intro hall
        rw [hall t hmem] at hp
        cases hp

/-- C14 at `see http://a.b/c now`: the second token is returned. -/
theorem findFirstLink_space_tokens_witness :
    findFirstLink (utf8 "see http://a.b/c now") = utf8 "http://a.b/c" :=
  (findFirstLink_space_tokens (utf8 "see http://a.b/c now")).2.2.1
    [utf8 "see"] (utf8 "http://a.b/c") [utf8 "now"] (by decide) (by decide) (by decide)

/-- C14 as stated fails: in a line whose link is set off by a tab, which is
whitespace, there is no space to split at; the whole line is the one token,
it does not start with `http`, and the empty string is returned although the
tab-separated token `http://a.b/c` starts with `http`. -/
theorem findFirstLink_tab_not_split :
    findFirstLink (utf8 "song\thttp://a.b/c") = []
    ∧ utf8 "song\thttp://a.b/c" = utf8 "song" ++ [byte '\t'] ++ utf8 "http://a.b/c"
    ∧ HasPrefix (utf8 "http://a.b/c") (utf8 "http") = true := by
  decide

/-! ## C15, C19: what getFirstLink returns -/

/-- Where a fragment of `Split` lies in the string: it starts at the start of
the string or right after a separator, and it ends at the end of the string
or right before a separator. -/
theorem Split_mem_decomp (sep : UInt8) (n : Nat) :
    ∀ (s f : Str), s.length ≤ n → f ∈ Split s sep →
      ∃ pre post, s = pre ++ f ++ post
        ∧ (pre = [] ∨ ∃ p, pre = p ++ [sep])
        ∧ (post = [] ∨ ∃ q, post = sep :: q) := by
  induction n with
  | zero =>
    intro s f hlen hf
    have hs : s = [] := List.length_eq_zero.1 (Nat.le_zero.1 hlen)
    subst hs
    simp only [Split, List.mem_singleton] at hf
    subst hf
    exact ⟨[], [], rfl, Or.inl rfl, Or.inl rfl⟩
  | succ n ih =>
    intro s f hlen hf
    by_cases hm : sep ∈ s
    · have hsplit := Split_cons_of_mem s sep hm
      have hs := split_at_first s sep hm
      rw [hsplit, List.mem_cons] at hf
      rcases hf with rfl | hf
      · exact ⟨[], sep :: (s.dropWhile (fun b => b != sep)).drop 1, by simpa using hs.symm,
          Or.inl rfl, Or.inr ⟨_, rfl⟩⟩
      · have hlen2 : ((s.dropWhile (fun b => b != sep)).drop 1).length ≤ n := by
          have := congrArg List.length hs
          simp only [List.length_append, List.length_cons] at this
          omega
        obtain ⟨pre, post, hb, hpre, hpost⟩ := ih _ f hlen2 hf
        refine ⟨s.takeWhile (fun b => b != sep) ++ sep :: pre, post, ?_, ?_, hpost⟩
        · conv_lhs => rw [← hs, hb]
          simp
        · rcases hpre with rfl | ⟨p, rfl⟩
          · exact Or.inr ⟨s.takeWhile (fun b => b != sep), rfl⟩
          · exact Or.inr ⟨s.takeWhile (fun b => b != sep) ++ sep :: p, by simp⟩
    · rw [Split_of_not_mem s sep hm, List.mem_singleton] at hf
      subst hf
      exact ⟨[], [], by simp, Or.inl rfl, Or.inl rfl⟩

/-- Every byte of a fragment is a byte of the string. -/
theorem Split_mem_subset (s f : Str) (sep : UInt8) (hf : f ∈ Split s sep) :
    ∀ b ∈ f, b ∈ s := by
  obtain ⟨pre, post, hs, _, _⟩ := Split_mem_decomp sep s.length s f (Nat.le_refl _) hf
  intro b hb
  rw [hs]
  simp [hb]

/-- C15, as the code has it: on a document none of whose lines holds a `)`,
`getFirstLink` returns the empty string, with no error when the scanner has
read the document to its end without error, and with the scanner's error
(lines 101-103) when the read ended in one. -/
theorem getFirstLink_no_closing_paren (padContent : Body)
    (h : ∀ l ∈ padContent.lines, byte ')' ∉ l) :
    (padContent.err = none → getFirstLink padContent = ([], none))
    ∧ (∀ err, padContent.err = some err → getFirstLink padContent = ([], some err)) := by
  have hnone : padContent.lines.findSome?
      (fun line => (Split line (byte '(')).findSome? linkOfCandidate) = none := by
    rw [List.findSome?_eq_none_iff]
    intro l hl
    rw [List.findSome?_eq_none_iff]
    intro f hf
    rw [linkOfCandidate_eq_none]
    rintro ⟨_, hsuf⟩
    obtain ⟨t, ht⟩ := (HasSuffix_iff _ _).1 hsuf
    have hmem : byte ')' ∈ f := by
      rw [← ht]
      have hu : utf8 ")" = [byte ')'] := rfl
      simp [hu]
    exact h l hl (Split_mem_subset l f (byte '(') hf _ hmem)
  constructor
  · intro he
    unfold getFirstLink
    rw [hnone, he]
  · intro err he
    unfold getFirstLink
    rw [hnone, he]

/-- C15 as amended at the document of the one line
`text (https://pad.ccc-p.org/Foo`, read to its end: the empty string and no
error. -/
theorem getFirstLink_no_closing_paren_witness :
    getFirstLink ⟨[utf8 "text (https://pad.ccc-p.org/Foo"], none⟩ = ([], none) :=
  (getFirstLink_no_closing_paren ⟨[utf8 "text (https://pad.ccc-p.org/Foo"], none⟩
    (by decide)).1 rfl

/-- C15 as stated fails: a pad whose first line is `text (https://pad.ccc-p.org/Foo`
and whose next line is longer than the scanner's token limit holds no `)` on
the line the scanner delivers, the scanner then reports
`bufio.Scanner: token too long`, and `getFirstLink` returns the empty string
together with that error, not with no error. -/
theorem getFirstLink_scanner_error_returned :
    (∀ l ∈ [utf8 "text (https://pad.ccc-p.org/Foo"], byte ')' ∉ l)
    ∧ getFirstLink ⟨[utf8 "text (https://pad.ccc-p.org/Foo"],
        some "bufio.Scanner: token too long"⟩
      = ([], some "bufio.Scanner: token too long")
    ∧ getFirstLink ⟨[utf8 "text (https://pad.ccc-p.org/Foo"],
        some "bufio.Scanner: token too long"⟩ ≠ ([], none) := by
  decide

/-- An accepted fragment starts with the host prefix, and the link taken
from it is its text before its first `)`. -/
theorem linkOfCandidate_eq_some (f link : Str) (h : linkOfCandidate f = some link) :
    HasPrefix f padHost = true
    ∧ link = f.takeWhile (fun b => b != byte ')')
    ∧ ∃ rest, f = link ++ byte ')' :: rest := by
  unfold linkOfCandidate at h
  by_cases h1 : HasPrefix f padHost = true
  · by_cases h2 : HasSuffix f (utf8 ")") = true
    · by_cases h3 : (Split f (byte ')')).length > 1
      · simp only [h1, h2, h3, if_true] at h
        have hm : byte ')' ∈ f := by
          by_contra hn
          have := (Split_length_lt_two f (byte ')')).2 hn
          omega
        rw [Split_cons_of_mem f _ hm] at h
        simp only [List.head?_cons, Option.some.injEq] at h
        subst h
        exact ⟨h1, rfl, _, (split_at_first f _ hm).symm⟩
      · simp [h1, h2, h3] at h
    · simp [h1, h2] at h
  · simp [h1] at h

/-- C19, as the code has it: a non-empty URL returned by `getFirstLink`
starts with `https://pad.ccc-p.org/`, holds neither `(` nor `)`, and stands on
some line of the document right before a `)` and either right after a `(` or
at the very start of the line. -/
theorem getFirstLink_link_shape (padContent : Body)
    (h : (getFirstLink padContent).1 ≠ []) :
    HasPrefix (getFirstLink padContent).1 padHost = true
    ∧ byte '(' ∉ (getFirstLink padContent).1
    ∧ byte ')' ∉ (getFirstLink padContent).1
    ∧ ∃ line ∈ padContent.lines, ∃ pre post,
        line = pre ++ (getFirstLink padContent).1 ++ byte ')' :: post
        ∧ (pre = [] ∨ ∃ p, pre = p ++ [byte '(']) := by
  cases hf : padContent.lines.findSome?
      (fun line => (Split line (byte '(')).findSome? linkOfCandidate) with
  | none =>
    exfalso
    apply h
    unfold getFirstLink
    rw [hf]
    cases padContent.err <;> rfl
  | some link =>
    have hg : (getFirstLink padContent).1 = link := by
      unfold getFirstLink
      rw [hf]
    rw [hg]
    obtain ⟨line, hline, hfrag⟩ := List.exists_of_findSome?_eq_some hf
    obtain ⟨f, hfmem, hlink⟩ := List.exists_of_findSome?_eq_some hfrag
    obtain ⟨hpre, htake, rest, hrest⟩ := linkOfCandidate_eq_some f link hlink
    have hfo : byte '(' ∉ f := Split_no_sep line (byte '(') f hfmem
    have hlo : byte '(' ∉ link := fun hm => hfo (by rw [hrest]; simp [hm])
    have hlc : byte ')' ∉ link := by
      rw [htake]
      intro hm
      have := List.mem_takeWhile_imp hm
      simp at this
    have hhost : HasPrefix link padHost = true := by
      obtain ⟨t, ht⟩ := (HasPrefix_iff _ _).1 hpre
      rw [HasPrefix_iff, htake, ← ht, takeWhile_ne_append _ _ _ (by decide)]
      exact List.prefix_append _ _
    obtain ⟨pre, post, hs, hp, _⟩ :=
      Split_mem_decomp (byte '(') line.length line f (Nat.le_refl _) hfmem
    refine ⟨hhost, hlo, hlc, line, hline, pre, rest ++ post, ?_, hp⟩
    rw [hs, hrest]
    simp

/-- C19 at the one-line document `see (https://pad.ccc-p.org/Foo)`. -/
theorem getFirstLink_link_shape_witness :
    HasPrefix (getFirstLink ⟨[utf8 "see (https://pad.ccc-p.org/Foo)"], none⟩).1 padHost = true
    ∧ byte '(' ∉ (getFirstLink ⟨[utf8 "see (https://pad.ccc-p.org/Foo)"], none⟩).1
    ∧ byte ')' ∉ (getFirstLink ⟨[utf8 "see (https://pad.ccc-p.org/Foo)"], none⟩).1
    ∧ ∃ line ∈ [utf8 "see (https://pad.ccc-p.org/Foo)"], ∃ pre post,
        line = pre ++ (getFirstLink ⟨[utf8 "see (https://pad.ccc-p.org/Foo)"], none⟩).1
            ++ byte ')' :: post
        ∧ (pre = [] ∨ ∃ p, pre = p ++ [byte '(']) :=
  getFirstLink_link_shape ⟨[utf8 "see (https://pad.ccc-p.org/Foo)"], none⟩ (by decide)

/-- C19 as stated fails: the one-line document `https://pad.ccc-p.org/Foo)`
holds no `(` at all, and `getFirstLink` returns `https://pad.ccc-p.org/Foo`,
which therefore does not stand right after a `(`. -/
theorem getFirstLink_link_at_line_start :
    getFirstLink ⟨[utf8 "https://pad.ccc-p.org/Foo)"], none⟩
      = (utf8 "https://pad.ccc-p.org/Foo", none)
    ∧ byte '(' ∉ utf8 "https://pad.ccc-p.org/Foo)" := by
  decide

/-! ## C17: the music credits -/

/-- With a title fetch that always answers, the loop over the `mukke` lines
appends one entry for each line that holds a link, in the order of the lines. -/
theorem mukkeLoop_total (t : Str → Str) (mukke : List Str) (md : Str) :
    mukkeLoop (fun u => .ok (t u)) mukke md
      = .ok (md ++ mukke.flatMap (fun m =>
          if findFirstLink m = [] then []
          else utf8 "\n&#x1f3b6;&nbsp;[" ++ t (findFirstLink m) ++ utf8 "]("
            ++ findFirstLink m ++ utf8 ")")) := by
  induction mukke generalizing md with
  | nil => simp [mukkeLoop]
  | cons m rest ih =>
    unfold mukkeLoop
    by_cases hl : findFirstLink m = []
    · simp only [hl, if_true, List.flatMap_cons, List.nil_append]
      exact ih md
    · simp only [hl, if_false, List.flatMap_cons]
      rw [ih]
      simp

/-- C17: with `t` standing for the title fetch and the record of line 206
built, the final LongSummaryMD is the long summary body followed, for each
`mukke` line in order whose `findFirstLink` is a non-empty link `u`, by
`\n&#x1f3b6;&nbsp;[t(u)](u)`, the other lines adding nothing; without a
`mukke` section it is the long summary body as it was, and the assembly
succeeds. -/
theorem main_record_music_credits (t : Str → Str) (padURL : Str)
    (contentBySection : SectionMap) (entry : CiREntry)
    (he : main_entry padURL contentBySection = .ok entry) :
    (∀ mukke, contentBySection.get? (utf8 "mukke") = some mukke →
      main_record (fun u => .ok (t u)) padURL contentBySection
        = .ok { entry with
            Chapters := main_chapters contentBySection
            LongSummaryMD := entry.LongSummaryMD ++ mukke.flatMap (fun m =>
              if findFirstLink m = [] then []
              else utf8 "\n&#x1f3b6;&nbsp;[" ++ t (findFirstLink m) ++ utf8 "]("
                ++ findFirstLink m ++ utf8 ")") })
    ∧ (contentBySection.get? (utf8 "mukke") = none →
      main_record (fun u => .ok (t u)) padURL contentBySection
        = .ok { entry with
            Chapters := main_chapters contentBySection
            LongSummaryMD := entry.LongSummaryMD }) := by
  constructor
  · intro mukke hm
    simp only [main_record, he, main_mukke, hm, mukkeLoop_total]
  · intro hm
    simp only [main_record, he, main_mukke, hm]

/-- C17 at a `mukke` section of a line with a link and a line without. -/
theorem main_record_music_credits_witness :
    ∃ entry,
      main_record (fun _ => .ok (utf8 "Song")) (utf8 "https://pad.ccc-p.org/Radio_2023-05-10")
        [(utf8 "summary", [utf8 "s"]), (utf8 "shownotes", [utf8 "n"]),
         (utf8 "mukke", [utf8 "played: http://a.b/c (cc-by)", utf8 "no link here"])]
        = .ok entry
      ∧ entry.LongSummaryMD
          = utf8 "**Shownotes:**\nn\n&#x1f3b6;&nbsp;[Song](http://a.b/c)" :=
  ⟨_, (main_record_music_credits (fun _ => utf8 "Song")
      (utf8 "https://pad.ccc-p.org/Radio_2023-05-10")
      [(utf8 "summary", [utf8 "s"]), (utf8 "shownotes", [utf8 "n"]),
       (utf8 "mukke", [utf8 "played: http://a.b/c (cc-by)", utf8 "no link here"])]
      _ (by rfl)).1 [utf8 "played: http://a.b/c (cc-by)", utf8 "no link here"] (by decide),
    by decide⟩

/-! ## C18: the lines the splitter stores are trimmed -/

theorem dropWhile_head_ne (l : Str) (c : UInt8) :
    (l.dropWhile (fun b => b == c)).head? ≠ some c := by
  induction l with
  | nil => simp
  | cons x xs ih =>
    by_cases hx : x = c
    · simpa [List.dropWhile_cons, hx] using ih
    · have hb : (x == c) = false := by simpa using hx
      simp [List.dropWhile_cons, hb, hx]

theorem dropWhile_getLast (l : Str) (c : UInt8) :
    (l.dropWhile (fun b => b == c)).getLast? = none
      ∨ (l.dropWhile (fun b => b == c)).getLast? = l.getLast? := by
  induction l with
  | nil => simp
  | cons x xs ih =>
    by_cases hx : x = c
    · have hd : (x :: xs).dropWhile (fun b => b == c) = xs.dropWhile (fun b => b == c) := by
        simp [List.dropWhile_cons, hx]
      rw [hd]
      rcases ih with h | h
      · exact Or.inl h
      · cases xs with
        | nil => exact Or.inl (by simp)
        | cons y ys => exact Or.inr (by rw [h]; simp [List.getLast?_cons_cons])
    · have hb : (x == c) = false := by simpa using hx
      exact Or.inr (by simp [List.dropWhile_cons, hb])

/-- What `Trim` returns has the byte at neither end. -/
theorem Trim_ends (s : Str) (c : UInt8) :
    (Trim s c).head? ≠ some c ∧ (Trim s c).getLast? ≠ some c := by
  unfold Trim
  refine ⟨dropWhile_head_ne _ c, ?_⟩
  rcases dropWhile_getLast ((s.reverse.dropWhile (fun b => b == c)).reverse) c with h | h
  · rw [h]
    simp
  · rw [h, List.getLast?_reverse]
    exact dropWhile_head_ne _ c

theorem SectionMap.mem_set (m : SectionMap) (k : Str) (v : List Str) (p : Str × List Str)
    (h : p ∈ m.set k v) : p ∈ m ∨ p = (k, v) := by
  induction m with
  | nil =>
    simp only [SectionMap.set, List.mem_singleton] at h
    exact Or.inr h
  | cons q rest ih =>
    obtain ⟨k0, v0⟩ := q
    by_cases h0 : k0 = k
    · simp only [SectionMap.set, h0, if_true, List.mem_cons] at h
      rcases h with h | h
      · exact Or.inr h
      · exact Or.inl (List.mem_cons_of_mem _ h)
    · simp only [SectionMap.set, h0, if_false, List.mem_cons] at h
      rcases h with h | h
      · exact Or.inl (by rw [h]; exact List.mem_cons_self _ _)
      · rcases ih h with h' | h'
        · exact Or.inl (List.mem_cons_of_mem _ h')
        · exact Or.inr h'

theorem SectionMap.mem_of_get? (m : SectionMap) (k : Str) (v : List Str)
    (h : m.get? k = some v) : (k, v) ∈ m := by
  induction m with
  | nil => simp [SectionMap.get?] at h
  | cons q rest ih =>
    obtain ⟨k0, v0⟩ := q
    by_cases h0 : k0 = k
    · simp only [SectionMap.get?, h0, if_true, Option.some.injEq] at h
      rw [h0, h]
      exact List.mem_cons_self _ _
    · simp only [SectionMap.get?, h0, if_false] at h
      exact List.mem_cons_of_mem _ (ih h)

/-- A property that every trimmed line has holds of every line the scanning
loop has stored or is holding. -/
theorem scan_lines (P : Str → Prop) (hP : ∀ line, P (Trim line (byte ' ')))
    (mapLower : Str → Str) (lines : List Str) (st : SplitState)
    (hc : ∀ l ∈ st.currentSectionContent, P l)
    (hm : ∀ p ∈ st.contentBySection, ∀ l ∈ p.2, P l) :
    (∀ l ∈ (lines.foldl (sectionStep mapLower) st).currentSectionContent, P l)
    ∧ ∀ p ∈ (lines.foldl (sectionStep mapLower) st).contentBySection, ∀ l ∈ p.2, P l := by
  induction lines generalizing st with
  | nil => exact ⟨hc, hm⟩
  | cons line rest ih =>
    rw [List.foldl_cons]
    apply ih
    · unfold sectionStep
      by_cases h1 : HasPrefix line (utf8 "## ") = true
      · simp [h1]
      · by_cases h2 : HasPrefix line (utf8 "#") = true
        · simp only [h1, h2, if_true, if_false]
          exact hc
        · simp only [h1, h2, if_false]
          intro l hl
          rcases List.mem_append.1 hl with h | h
          · exact hc l h
          · rw [List.mem_singleton.1 h]
            exact hP line
    · unfold sectionStep
      by_cases h1 : HasPrefix line (utf8 "## ") = true
      · simp only [h1, if_true]
        intro p hp l hl
        rcases SectionMap.mem_set _ _ _ _ hp with h | h
        · exact hm p h l hl
        · rw [h] at hl
          exact hc l hl
      · by_cases h2 : HasPrefix line (utf8 "#") = true
        · simp only [h1, h2, if_true, if_false]
          exact hm
        · simp only [h1, h2, if_false]
          exact hm

/-- Every line of the map `getMarkdownContentBySection` returns has a space
at neither end. -/
theorem getMarkdownContentBySection_lines_trimmed (mapLower : Str → Str) (padContent : Body)
    (m : SectionMap) (h : getMarkdownContentBySection mapLower padContent = .ok m) :
    ∀ p ∈ m, ∀ l ∈ p.2, l.head? ≠ some (byte ' ') ∧ l.getLast? ≠ some (byte ' ') := by
  have hinv := scan_lines
    (fun l => l.head? ≠ some (byte ' ') ∧ l.getLast? ≠ some (byte ' '))
    (fun line => Trim_ends line (byte ' ')) mapLower padContent.lines
    { currentSection := utf8 "pre-section", currentSectionContent := [], contentBySection := [] }
    (by simp) (by simp)
  unfold getMarkdownContentBySection at h
  cases herr : padContent.err with
  | some err => simp only [herr] at h; cases h
  | none =>
    simp only [herr, Except.ok.injEq] at h
    subst h
    intro p hp l hl
    rcases SectionMap.mem_set _ _ _ _ hp with h' | h'
    · exact hinv.2 p h' l hl
    · rw [h'] at hl
      exact hinv.1 l hl

/-- The chapter of a line, by its first space. -/
theorem chapterOf_eq (c : Str) :
    chapterOf c
      = if byte ' ' ∈ c then
          some { Start := c.takeWhile (fun b => b != byte ' ')
                 Title := (c.dropWhile (fun b => b != byte ' ')).drop 1 }
        else none := by
  by_cases hm : byte ' ' ∈ c
  · have hs := Split_cons_of_mem c (byte ' ') hm
    have hlen : ¬ (Split c (byte ' ')).length < 2 := by
      rw [Split_length_lt_two]
      exact fun h => h hm
    have hj := Join_Split ((c.dropWhile (fun b => b != byte ' ')).drop 1) (byte ' ')
    have hu : utf8 " " = [byte ' '] := rfl
    simp only [chapterOf, hlen, if_false, hm, if_true, hu]
    rw [hs]
    simp only [List.headD_cons, List.drop_succ_cons, List.drop_zero, hj]
  · have hlen := (Split_length_lt_two c (byte ' ')).2 hm
    simp [chapterOf, hlen, hm]

/-- A line with a space at neither end gives a chapter with a Start and a
Title, if it gives one at all. -/
theorem chapterOf_nonempty (c : Str) (ch : CiRChapter)
    (hh : c.head? ≠ some (byte ' ')) (hl : c.getLast? ≠ some (byte ' '))
    (h : chapterOf c = some ch) : ch.Start ≠ [] ∧ ch.Title ≠ [] := by
  rw [chapterOf_eq] at h
  by_cases hm : byte ' ' ∈ c
  · simp only [hm, if_true, Option.some.injEq] at h
    subst h
    have hs := split_at_first c (byte ' ') hm
    constructor
    · intro he
      simp only at he
      rw [he] at hs
      apply hh
      rw [← hs]
      rfl
    · intro he
      simp only at he
      rw [he] at hs
      apply hl
      rw [← hs]
      simp
  · simp [hm] at h

/-- C18: every chapter `main` builds from the `chapters` lines of the map
that `getMarkdownContentBySection` returns has a non-empty Start and a
non-empty Title, the lines having a space at neither end. -/
theorem main_chapters_nonempty (mapLower : Str → Str) (padContent : Body) (m : SectionMap)
    (h : getMarkdownContentBySection mapLower padContent = .ok m) :
    ∀ ch ∈ main_chapters m, ch.Start ≠ [] ∧ ch.Title ≠ [] := by
  intro ch hch
  unfold main_chapters at hch
  cases hg : m.get? (utf8 "chapters") with
  | none => simp [hg] at hch
  | some chapter =>
    simp only [hg, List.mem_filterMap] at hch
    obtain ⟨c, hc, hco⟩ := hch
    have htr := getMarkdownContentBySection_lines_trimmed mapLower padContent m h
      (utf8 "chapters", chapter) (SectionMap.mem_of_get? m _ _ hg) c hc
    exact chapterOf_nonempty c ch htr.1 htr.2 hco

/-- C18 at the document `## Chapters`, `  00:01:23  Intro music `,
`00:05:00 `, `   `, `## end`: the one chapter built has Start `00:01:23` and
Title ` Intro music`. -/
theorem main_chapters_nonempty_witness :
    getMarkdownContentBySection id
        ⟨[utf8 "## Chapters", utf8 "  00:01:23  Intro music ", utf8 "00:05:00 ", utf8 "   ",
          utf8 "## end"], none⟩
      = .ok [(utf8 "pre-section", []),
             (utf8 "chapters", [utf8 "00:01:23  Intro music", utf8 "00:05:00", utf8 ""]),
             (utf8 "end", [])]
    ∧ (CiRChapter.mk (utf8 "00:01:23") (utf8 " Intro music")).Start ≠ []
    ∧ (CiRChapter.mk (utf8 "00:01:23") (utf8 " Intro music")).Title ≠ [] :=
  ⟨by decide,
   main_chapters_nonempty id
    ⟨[utf8 "## Chapters", utf8 "  00:01:23  Intro music ", utf8 "00:05:00 ", utf8 "   ",
      utf8 "## end"], none⟩
    [(utf8 "pre-section", []),
     (utf8 "chapters", [utf8 "00:01:23  Intro music", utf8 "00:05:00", utf8 ""]),
     (utf8 "end", [])] (by decide)
    (CiRChapter.mk (utf8 "00:01:23") (utf8 " Intro music")) (by decide)⟩

/-! ## C12: running the splitter on its own output -/

theorem dropWhile_of_head_ne (l : Str) (c : UInt8) (h : l.head? ≠ some c) :
    l.dropWhile (fun b => b == c) = l := by
  cases l with
  | nil => rfl
  | cons x xs =>
    have hx : (x == c) = false := by
      have : x ≠ c := fun e => h (by simp [e])
      simpa using this
    simp [List.dropWhile_cons, hx]

/-- A string with the byte at neither end is left as it is by `Trim`. -/
theorem Trim_of_ends (s : Str) (c : UInt8) (hh : s.head? ≠ some c)
    (hl : s.getLast? ≠ some c) : Trim s c = s := by
  unfold Trim
  rw [dropWhile_of_head_ne s.reverse c (by rw [List.head?_reverse]; exact hl),
    List.reverse_reverse, dropWhile_of_head_ne s c hh]

theorem HasPrefix_heading (k : Str) : HasPrefix (utf8 "## " ++ k) (utf8 "## ") = true := by
  rw [HasPrefix_iff]
  exact List.prefix_append _ _

theorem TrimPrefix_heading (k : Str) : TrimPrefix (utf8 "## " ++ k) (utf8 "## ") = k := by
  unfold TrimPrefix
  rw [HasPrefix_heading, if_pos rfl]
  exact List.drop_left _ _

theorem not_heading_of_not_hash (l : Str) (h : HasPrefix l (utf8 "#") = false) :
    HasPrefix l (utf8 "## ") = false := by
  cases hp : HasPrefix l (utf8 "## ") with
  | false => rfl
  | true =>
    obtain ⟨t, ht⟩ := (HasPrefix_iff _ _).1 hp
    have : HasPrefix l (utf8 "#") = true := by
      rw [HasPrefix_iff]
      exact ⟨utf8 "# " ++ t, by rw [← ht]; rfl⟩
    rw [this] at h
    cases h

/-- The scanning loop over lines that neither start with `#` nor have a space
at an end: they are appended as they are. -/
theorem scan_plain_lines (mapLower : Str → Str) (v : List Str) (st : SplitState)
    (hv : ∀ l ∈ v, HasPrefix l (utf8 "#") = false
      ∧ l.head? ≠ some (byte ' ') ∧ l.getLast? ≠ some (byte ' ')) :
    v.foldl (sectionStep mapLower) st
      = { st with currentSectionContent := st.currentSectionContent ++ v } := by
  induction v generalizing st with
  | nil => simp
  | cons l rest ih =>
    obtain ⟨h1, h2, h3⟩ := hv l (List.mem_cons_self _ _)
    have hstep : sectionStep mapLower st l
        = { st with currentSectionContent := st.currentSectionContent ++ [l] } := by
      simp only [sectionStep, not_heading_of_not_hash l h1, h1, Trim_of_ends l _ h2 h3]
      rfl
    rw [List.foldl_cons, hstep, ih _ (fun x hx => hv x (List.mem_cons_of_mem _ hx))]
    simp

/-- The scanning loop over a map written back as a document, when the keys
are their own lower-casing and the lines are as in `scan_plain_lines`: the
map committed at the end is the map committed before, with every pair of the
written map set in turn. -/
theorem scan_rebuildDocument (mapLower : Str → Str) (E : SectionMap) (st : SplitState)
    (hE : ∀ p ∈ E, ToLower mapLower p.1 = p.1 ∧ ∀ l ∈ p.2,
      HasPrefix l (utf8 "#") = false ∧ l.head? ≠ some (byte ' ') ∧ l.getLast? ≠ some (byte ' '))
    (hcur : ToLower mapLower st.currentSection = st.currentSection) :
    ((rebuildDocument E).foldl (sectionStep mapLower) st).contentBySection.set
        ((rebuildDocument E).foldl (sectionStep mapLower) st).currentSection
        ((rebuildDocument E).foldl (sectionStep mapLower) st).currentSectionContent
      = E.foldl (fun acc p => acc.set p.1 p.2)
          (st.contentBySection.set st.currentSection st.currentSectionContent) := by
  induction E generalizing st with
  | nil => rfl
  | cons p rest ih =>
    obtain ⟨k, v⟩ := p
    obtain ⟨hk, hv⟩ := hE (k, v) (List.mem_cons_self _ _)
    have hhead : sectionStep mapLower st (utf8 "## " ++ k)
        = { currentSection := k, currentSectionContent := [],
            contentBySection :=
              st.contentBySection.set st.currentSection st.currentSectionContent } := by
      simp only [sectionStep, HasPrefix_heading, if_true, TrimPrefix_heading, hcur]
    have hreb : rebuildDocument ((k, v) :: rest)
        = (utf8 "## " ++ k) :: (v ++ rebuildDocument rest) := by
      simp [rebuildDocument]
    rw [hreb, List.foldl_cons, List.foldl_append, hhead, scan_plain_lines mapLower v _ hv,
      ih _ (fun q hq => hE q (List.mem_cons_of_mem _ hq)) hk]
    simp

theorem SectionMap.get?_foldl_set_of_not_mem (E init : SectionMap) (k : Str)
    (h : k ∉ E.map Prod.fst) :
    (E.foldl (fun acc p => acc.set p.1 p.2) init).get? k = init.get? k := by
  induction E generalizing init with
  | nil => rfl
  | cons p rest ih =>
    have h1 : ¬ p.1 = k := fun e => h (by simp [e])
    have h2 : k ∉ rest.map Prod.fst := fun hm => h (by simp at hm ⊢; exact Or.inr hm)
    rw [List.foldl_cons, ih _ h2, SectionMap.get?_set, if_neg h1]

/-- Setting the pairs of a list with distinct keys in turn leaves every key
of the list with its lines. -/
theorem SectionMap.get?_foldl_set (E init : SectionMap) (k : Str) (v : List Str)
    (hnd : (E.map Prod.fst).Nodup) (hmem : (k, v) ∈ E) :
    (E.foldl (fun acc p => acc.set p.1 p.2) init).get? k = some v := by
  induction E generalizing init with
  | nil => simp at hmem
  | cons p rest ih =>
    rw [List.map_cons, List.nodup_cons] at hnd
    rw [List.foldl_cons]
    rcases List.mem_cons.1 hmem with e | hm
    · subst e
      rw [SectionMap.get?_foldl_set_of_not_mem rest _ k hnd.1, SectionMap.get?_set, if_pos rfl]
    · exact ih _ hnd.2 hm

theorem SectionMap.set_keys_nodup (m : SectionMap) (k : Str) (v : List Str)
    (h : (m.map Prod.fst).Nodup) : ((m.set k v).map Prod.fst).Nodup := by
  induction m with
  | nil => simp [SectionMap.set]
  | cons q rest ih =>
    obtain ⟨k0, v0⟩ := q
    rw [List.map_cons, List.nodup_cons] at h
    by_cases h0 : k0 = k
    · simp only [SectionMap.set, h0, if_true, List.map_cons, List.nodup_cons]
      exact ⟨h0 ▸ h.1, h.2⟩
    · simp only [SectionMap.set, h0, if_false, List.map_cons, List.nodup_cons]
      refine ⟨?_, ih h.2⟩
      intro hm
      obtain ⟨q, hq, hqk⟩ := List.mem_map.1 hm
      rcases SectionMap.mem_set _ _ _ _ hq with h' | h'
      · exact h.1 (List.mem_map.2 ⟨q, h', hqk⟩)
      · rw [h'] at hqk
        exact h0 hqk.symm

theorem scan_keys_nodup (mapLower : Str → Str) (lines : List Str) (st : SplitState)
    (h : (st.contentBySection.map Prod.fst).Nodup) :
    ((lines.foldl (sectionStep mapLower) st).contentBySection.map Prod.fst).Nodup := by
  induction lines generalizing st with
  | nil => exact h
  | cons line rest ih =>
    rw [List.foldl_cons]
    apply ih
    unfold sectionStep
    by_cases h1 : HasPrefix line (utf8 "## ") = true
    · simp only [h1, if_true]
      exact SectionMap.set_keys_nodup _ _ _ h
    · by_cases h2 : HasPrefix line (utf8 "#") = true
      · simp only [h1, h2, if_true, if_false]
        exact h
      · simp only [h1, h2, if_false]
        exact h

/-- The map `getMarkdownContentBySection` returns has no key twice. -/
theorem getMarkdownContentBySection_keys_nodup (mapLower : Str → Str) (padContent : Body)
    (m : SectionMap) (h : getMarkdownContentBySection mapLower padContent = .ok m) :
    (m.map Prod.fst).Nodup := by
  unfold getMarkdownContentBySection at h
  cases herr : padContent.err with
  | some err => simp only [herr] at h; cases h
  | none =>
    simp only [herr, Except.ok.injEq] at h
    subst h
    exact SectionMap.set_keys_nodup _ _ _ (scan_keys_nodup mapLower _ _ (by simp))

/-- C12, as the code has it: when no line stored in the result of
`getMarkdownContentBySection` starts with `#` and every key of the result is
its own lower-casing, then writing the result back as a document, each key
as the line `## <key>` followed by its lines, the keys in any order, and
running `getMarkdownContentBySection` on that document gives, for every key
of the original result, the same line sequence. -/
theorem getMarkdownContentBySection_round_trip (mapLower : Str → Str) (padContent : Body)
    (m m' : SectionMap)
    (h : getMarkdownContentBySection mapLower padContent = .ok m)
    (hlines : ∀ p ∈ m, ∀ l ∈ p.2, HasPrefix l (utf8 "#") = false)
    (hkeys : ∀ p ∈ m, ToLower mapLower p.1 = p.1)
    (hperm : m'.Perm m) :
    ∃ r, getMarkdownContentBySection mapLower ⟨rebuildDocument m', none⟩ = .ok r
      ∧ ∀ k v, m.get? k = some v → r.get? k = some v := by
  have htrim := getMarkdownContentBySection_lines_trimmed mapLower padContent m h
  have hnd : (m'.map Prod.fst).Nodup :=
    (List.Perm.nodup_iff (hperm.map Prod.fst)).2
      (getMarkdownContentBySection_keys_nodup mapLower padContent m h)
  have hE : ∀ p ∈ m', ToLower mapLower p.1 = p.1 ∧ ∀ l ∈ p.2,
      HasPrefix l (utf8 "#") = false ∧ l.head? ≠ some (byte ' ')
        ∧ l.getLast? ≠ some (byte ' ') := by
    intro p hp
    have hpm : p ∈ m := hperm.mem_iff.1 hp
    exact ⟨hkeys p hpm, fun l hl => ⟨hlines p hpm l hl, htrim p hpm l hl⟩⟩
  have hscan := scan_rebuildDocument mapLower m'
    { currentSection := utf8 "pre-section", currentSectionContent := [], contentBySection := [] }
    hE rfl
  refine ⟨_, rfl, ?_⟩
  intro k v hg
  have hmem : (k, v) ∈ m' := hperm.mem_iff.2 (SectionMap.mem_of_get? m k v hg)
  show (SectionMap.set (scanSections mapLower (rebuildDocument m')).contentBySection
    (scanSections mapLower (rebuildDocument m')).currentSection
    (scanSections mapLower (rebuildDocument m')).currentSectionContent).get? k = some v
  unfold scanSections
  rw [hscan]
  exact SectionMap.get?_foldl_set m' _ k v hnd hmem

/-- C12 as amended at the document `intro`, `## Summary`, ` a `, `## notes`,
`b`, with the keys written back in another order. -/
theorem getMarkdownContentBySection_round_trip_witness :
    ∃ r, getMarkdownContentBySection id
        ⟨rebuildDocument [(utf8 "notes", [utf8 "b"]), (utf8 "pre-section", [utf8 "intro"]),
          (utf8 "summary", [utf8 "a"])], none⟩ = .ok r
      ∧ ∀ k v, SectionMap.get? [(utf8 "pre-section", [utf8 "intro"]),
          (utf8 "summary", [utf8 "a"]), (utf8 "notes", [utf8 "b"])] k = some v →
            r.get? k = some v :=
  getMarkdownContentBySection_round_trip id
    ⟨[utf8 "intro", utf8 "## Summary", utf8 " a ", utf8 "## notes", utf8 "b"], none⟩
    [(utf8 "pre-section", [utf8 "intro"]), (utf8 "summary", [utf8 "a"]),
     (utf8 "notes", [utf8 "b"])]
    [(utf8 "notes", [utf8 "b"]), (utf8 "pre-section", [utf8 "intro"]),
     (utf8 "summary", [utf8 "a"])]
    (by decide) (by decide) (by decide)
    ((List.Perm.swap _ _ _).trans ((List.Perm.swap _ _ _).cons _))

/-- C12 as stated fails: the line ` # x` does not start with `#` and is
stored, trimmed, as `# x` under `pre-section`; written back as `## pre-section`,
`# x`, it starts with `#` and is dropped, and the second run stores no line
under `pre-section`. -/
theorem getMarkdownContentBySection_round_trip_loses_hash_line :
    getMarkdownContentBySection id ⟨[utf8 " # x"], none⟩
      = .ok [(utf8 "pre-section", [utf8 "# x"])]
    ∧ rebuildDocument [(utf8 "pre-section", [utf8 "# x"])]
      = [utf8 "## pre-section", utf8 "# x"]
    ∧ getMarkdownContentBySection id
        ⟨rebuildDocument [(utf8 "pre-section", [utf8 "# x"])], none⟩
      = .ok [(utf8 "pre-section", [])] := by
  decide

/-! ## C16: what is stored under each section key -/

/-- C16 at the document `intro `, `## Chapters`, `  00:00:00 Start `, `# note`,
the empty line, `00:10:00\tEnd`: the lines before the heading are stored
under `pre-section`, and the lines of the heading that do not start with `#`
are stored trimmed of spaces, in order, the blank line and the tab kept, but
under `Chapters`, the heading text as written; under the section key
`chapters` nothing is stored. -/
theorem getMarkdownContentBySection_last_section_key (mapLower : Str → Str) :
    getMarkdownContentBySection mapLower
        ⟨[utf8 "intro ", utf8 "## Chapters", utf8 "  00:00:00 Start ", utf8 "# note",
          utf8 "", utf8 "00:10:00\tEnd"], none⟩
      = .ok [(utf8 "pre-section", [utf8 "intro"]),
             (utf8 "Chapters", [utf8 "00:00:00 Start", utf8 "", utf8 "00:10:00\tEnd"])]
    ∧ ToLower mapLower (TrimPrefix (utf8 "## Chapters") (utf8 "## ")) = utf8 "chapters"
    ∧ SectionMap.get? [(utf8 "pre-section", [utf8 "intro"]),
             (utf8 "Chapters", [utf8 "00:00:00 Start", utf8 "", utf8 "00:10:00\tEnd"])]
        (utf8 "chapters") = none := by
  refine ⟨rfl, rfl, by decide⟩

end Pad2gh
